import Mathlib

/-!
Verification development for the prompt-analyzer service.

The system has two components:
 - the Analysis Endpoint (`src/app/api/analyze/route.ts`, `POST`), which
   validates a JSON request body, invokes an external model, strips an
   optional Markdown code fence from the model's textual reply, parses it
   as JSON and forwards the parsed value (or a typed error response);
 - the Client Surface (the `Home` component), which holds the local UI
   state and performs the analyze / use-improved-prompt actions.

JSON values are modelled by the inductive type `Json`.  `JSON.parse` is
modelled by `jsonParse`, an executable recursive-descent parser for the
ECMA-404 JSON grammar (the grammar accepted by JavaScript's `JSON.parse`):
the four JSON whitespace characters, strings with the JSON escape set,
numbers, literals, arrays and objects.  Modelling notes, which only affect
corners no claim depends on: numbers are kept as their source numeral token
(IEEE-754 value semantics of JavaScript numbers is out of scope), a
`\uXXXX` escape becomes the scalar with that code (pairing of escaped
UTF-16 surrogate halves is not modelled), and objects keep their fields as
an ordered list of pairs, every duplicate included; field lookup takes the
last binding with the looked-up key, which is the value JavaScript's
`JSON.parse` retains for a duplicated key.  `String.prototype.trim` and
the `\s*` of the fence regex are modelled over the four JSON whitespace
characters; they differ from JavaScript only on exotic whitespace
(`\v`, `\f`, non-ASCII spaces).
-/

/-- A JSON value, as produced by `JSON.parse`. -/
inductive Json where
  | null : Json
  | bool (b : Bool) : Json
  | num (tok : String) : Json
  | str (s : String) : Json
  | arr (items : List Json) : Json
  | obj (fields : List (String × Json)) : Json
deriving Repr

/-- The four JSON whitespace characters (also the set JavaScript's
`String.prototype.trim` strips in the ASCII range relevant here). -/
def isWs (c : Char) : Bool :=
  c == ' ' || c == '\t' || c == '\n' || c == '\r'

/-- Drop leading whitespace. -/
def skipWs : List Char → List Char
  | [] => []
  | c :: cs => if isWs c then skipWs cs else c :: cs

/-- Drop trailing whitespace. -/
def dropTrailingWs (cs : List Char) : List Char :=
  (skipWs cs.reverse).reverse

/-- Drop leading and trailing whitespace: the model of `String.prototype.trim`. -/
def trimChars (cs : List Char) : List Char :=
  dropTrailingWs (skipWs cs)

/-- `s.trim()` on strings. -/
def jsTrim (s : String) : String :=
  String.mk (trimChars s.data)

/-- Expect a fixed literal sequence of characters, returning the remainder. -/
def expectChars : List Char → List Char → Option (List Char)
  | [], cs => some cs
  | _ :: _, [] => none
  | l :: ls, c :: cs => if c = l then expectChars ls cs else none

/-- Take the maximal run of decimal digits. -/
def takeDigits : List Char → List Char × List Char
  | [] => ([], [])
  | c :: cs =>
    if c.isDigit then
      let p := takeDigits cs
      (c :: p.1, p.2)
    else ([], c :: cs)

/-- The integer part of a JSON number: `0`, or a nonzero digit followed by digits. -/
def parseIntPart : List Char → Option (List Char × List Char)
  | [] => none
  | c :: cs =>
    if c = '0' then some (['0'], cs)
    else if c.isDigit then
      let p := takeDigits cs
      some (c :: p.1, p.2)
    else none

/-- The optional fraction part of a JSON number: `.` followed by one or more digits. -/
def parseFracPart : List Char → Option (List Char × List Char)
  | [] => some ([], [])
  | c :: cs =>
    if c = '.' then
      let p := takeDigits cs
      if p.1 = [] then none else some ('.' :: p.1, p.2)
    else some ([], c :: cs)

/-- The optional exponent part of a JSON number: `e`/`E`, optional sign, digits. -/
def parseExpPart : List Char → Option (List Char × List Char)
  | [] => some ([], [])
  | c :: cs =>
    if c = 'e' ∨ c = 'E' then
      match cs with
      | [] => none
      | s :: cs2 =>
        if s = '+' ∨ s = '-' then
          let p := takeDigits cs2
          if p.1 = [] then none else some (c :: s :: p.1, p.2)
        else
          let p := takeDigits cs
          if p.1 = [] then none else some (c :: p.1, p.2)
    else some ([], c :: cs)

/-- The unsigned body of a JSON number token: integer part, optional
fraction and exponent, returned as the consumed characters. -/
def parseNumNoSign (cs : List Char) : Option (List Char × List Char) :=
  match parseIntPart cs with
  | none => none
  | some (ip, r1) =>
    match parseFracPart r1 with
    | none => none
    | some (fp, r2) =>
      match parseExpPart r2 with
      | none => none
      | some (ep, r3) => some (ip ++ fp ++ ep, r3)

/-- A JSON number token: optional `-`, integer part, optional fraction and
exponent.  The token is returned verbatim as a string. -/
def parseNumber (cs : List Char) : Option (String × List Char) :=
  match cs with
  | [] => none
  | c :: cs1 =>
    if c = '-' then (parseNumNoSign cs1).map (fun p => (String.mk ('-' :: p.1), p.2))
    else (parseNumNoSign (c :: cs1)).map (fun p => (String.mk p.1, p.2))

/-- Hexadecimal digit test. -/
def isHexDigit (c : Char) : Bool :=
  c.isDigit || ('a' ≤ c && c ≤ 'f') || ('A' ≤ c && c ≤ 'F')

/-- Value of a hexadecimal digit. -/
def hexVal (c : Char) : Nat :=
  if c.isDigit then c.toNat - 48
  else if 'a' ≤ c then c.toNat - 87
  else c.toNat - 55

/-- The body of a JSON string, after the opening quote: content characters
until the closing quote, with the JSON escape set.  Raw control characters
are rejected, as `JSON.parse` rejects them. -/
def parseStringRest : List Char → Option (List Char × List Char)
  | [] => none
  | c :: cs =>
    if c = '"' then some ([], cs)
    else if c = '\\' then
      match cs with
      | [] => none
      | e :: cs2 =>
        if e = '"' then (parseStringRest cs2).map (fun p => ('"' :: p.1, p.2))
        else if e = '\\' then (parseStringRest cs2).map (fun p => ('\\' :: p.1, p.2))
        else if e = '/' then (parseStringRest cs2).map (fun p => ('/' :: p.1, p.2))
        else if e = 'b' then (parseStringRest cs2).map (fun p => (Char.ofNat 8 :: p.1, p.2))
        else if e = 'f' then (parseStringRest cs2).map (fun p => (Char.ofNat 12 :: p.1, p.2))
        else if e = 'n' then (parseStringRest cs2).map (fun p => ('\n' :: p.1, p.2))
        else if e = 'r' then (parseStringRest cs2).map (fun p => ('\r' :: p.1, p.2))
        else if e = 't' then (parseStringRest cs2).map (fun p => ('\t' :: p.1, p.2))
        else if e = 'u' then
          match cs2 with
          | h1 :: h2 :: h3 :: h4 :: cs3 =>
            if isHexDigit h1 ∧ isHexDigit h2 ∧ isHexDigit h3 ∧ isHexDigit h4 then
              (parseStringRest cs3).map
                (fun p =>
                  (Char.ofNat (((hexVal h1 * 16 + hexVal h2) * 16 + hexVal h3) * 16 + hexVal h4)
                    :: p.1, p.2))
            else none
          | _ => none
        else none
    else if c.toNat < 32 then none
    else (parseStringRest cs).map (fun p => (c :: p.1, p.2))

/-- One pass of array elements: `value (ws , ws value)* ws ]`, with the
value parser supplied as an argument and a step counter for termination. -/
def parseElemsW (pv : List Char → Option (Json × List Char)) :
    Nat → List Char → Option (List Json × List Char)
  | 0, _ => none
  | n + 1, cs =>
    match pv cs with
    | none => none
    | some (v, r) =>
      match skipWs r with
      | [] => none
      | d :: r2 =>
        if d = ',' then (parseElemsW pv n (skipWs r2)).map (fun p => (v :: p.1, p.2))
        else if d = ']' then some ([v], r2)
        else none

/-- One pass of object members: `"key" ws : ws value (ws , ws …)* ws }`,
with the value parser supplied as an argument and a step counter. -/
def parseMembersW (pv : List Char → Option (Json × List Char)) :
    Nat → List Char → Option (List (String × Json) × List Char)
  | 0, _ => none
  | n + 1, cs =>
    match cs with
    | [] => none
    | c :: r0 =>
      if c = '"' then
        match parseStringRest r0 with
        | none => none
        | some (key, r1) =>
          match skipWs r1 with
          | [] => none
          | d :: r2 =>
            if d = ':' then
              match pv (skipWs r2) with
              | none => none
              | some (v, r3) =>
                match skipWs r3 with
                | [] => none
                | e :: r4 =>
                  if e = ',' then
                    (parseMembersW pv n (skipWs r4)).map
                      (fun p => ((String.mk key, v) :: p.1, p.2))
                  else if e = '}' then some ([(String.mk key, v)], r4)
                  else none
            else none
      else none

/-- A JSON value.  The input is expected to start at the value (leading
whitespace already skipped by the caller); the result is the value and the
unconsumed remainder.  `fuel` bounds the recursion depth. -/
def parseValue : Nat → List Char → Option (Json × List Char)
  | 0, _ => none
  | _ + 1, [] => none
  | fuel + 1, c :: rest =>
    if c = '{' then
      match skipWs rest with
      | [] => none
      | d :: r2 =>
        if d = '}' then some (Json.obj [], r2)
        else
          (parseMembersW (fun x => parseValue fuel x) fuel (d :: r2)).map
            (fun p => (Json.obj p.1, p.2))
    else if c = '[' then
      match skipWs rest with
      | [] => none
      | d :: r2 =>
        if d = ']' then some (Json.arr [], r2)
        else
          (parseElemsW (fun x => parseValue fuel x) fuel (d :: r2)).map
            (fun p => (Json.arr p.1, p.2))
    else if c = '"' then
      (parseStringRest rest).map (fun p => (Json.str (String.mk p.1), p.2))
    else if c = 't' then
      (expectChars ['r', 'u', 'e'] rest).map (fun r => (Json.bool true, r))
    else if c = 'f' then
      (expectChars ['a', 'l', 's', 'e'] rest).map (fun r => (Json.bool false, r))
    else if c = 'n' then
      (expectChars ['u', 'l', 'l'] rest).map (fun r => (Json.null, r))
    else if c = '-' ∨ c.isDigit then
      (parseNumber (c :: rest)).map (fun p => (Json.num p.1, p.2))
    else none

/-- `JSON.parse` on a character list: skip leading whitespace, parse one
value, and require that only whitespace remains. -/
def jsonParseChars (cs : List Char) : Option Json :=
  match parseValue (2 * cs.length + 1) (skipWs cs) with
  | none => none
  | some (v, rest) =>
    match skipWs rest with
    | [] => some v
    | _ :: _ => none

/-- The model of `JSON.parse`: `some` parsed value, or `none` when parsing
throws. -/
def jsonParse (s : String) : Option Json :=
  jsonParseChars s.data

/-- Does the text start with a ```json fence marker?  This is the model of
the anchored regex test in `/^```json\s*/i`: exactly three backticks
followed by `json` in any letter case.  (The `i` flag of the source regex
case-folds only the four ASCII letters of `json`.) -/
def fenceOpenTag : List Char → Bool
  | '`' :: '`' :: '`' :: c1 :: c2 :: c3 :: c4 :: _ =>
    (c1 == 'j' || c1 == 'J') && (c2 == 's' || c2 == 'S') &&
    (c3 == 'o' || c3 == 'O') && (c4 == 'n' || c4 == 'N')
  | _ => false

/-- `.replace(/^```json\s*/i, "")`: if the text starts with a ```json
marker, drop the marker and the whitespace after it; otherwise leave the
text unchanged. -/
def stripFenceOpen (cs : List Char) : List Char :=
  if fenceOpenTag cs then skipWs (cs.drop 7) else cs

/-- `.replace(/```$/i, "")`: if the text ends with three backticks, drop
them; otherwise leave the text unchanged. -/
def stripFenceClose (cs : List Char) : List Char :=
  match cs.reverse with
  | '`' :: '`' :: '`' :: r => r.reverse
  | _ => cs

/-- The endpoint's cleaning of the model's raw text:
`text.trim().replace(/^```json\s*/i, "").replace(/```$/i, "")`. -/
def cleanChars (cs : List Char) : List Char :=
  stripFenceClose (stripFenceOpen (trimChars cs))

/-- String-level cleaning of the upstream reply. -/
def cleanModelText (t : String) : String :=
  String.mk (cleanChars t.data)

/-- Last binding of a key in an ordered field list.  `JSON.parse` keeps the
last occurrence of a duplicated key, so reading a property of a parsed
object yields the last binding. -/
def lookupLast : List (String × Json) → String → Option Json
  | [], _ => none
  | (k', v) :: rest, k =>
    match lookupLast rest k with
    | some r => some r
    | none => if k' = k then some v else none

/-- Reading a property of a parsed JSON value, as JavaScript property
access does on the result of `JSON.parse`: objects yield the field when
present; every other value (and a missing field) yields `undefined`,
modelled as `none`. -/
def jsonField : Json → String → Option Json
  | Json.obj fields, k => lookupLast fields k
  | _, _ => none

/-- The fixed rubric instruction sent to the model (the `systemInstruction`
template string of the route). -/
def systemInstruction : String :=
  "You are an expert prompt-engineering coach.\nYou analyze user prompts using the following criteria:\n- Context: background info\n- Goal: what outcome the user wants\n- Format: structure of the output (bullets, list, table, slides, etc.)\n- Constraints: word count, tone, style, level\n- Examples: examples that show the desired style or structure\n\nReturn a JSON object only. Do not include any extra text, markdown, or explanations.\nThe JSON MUST match this TypeScript type exactly:\n\ninterface CriterionScore \x7b\n  id: \"context\" | \"goal\" | \"format\" | \"constraints\" | \"examples\";\n  label: string;           // human readable label\n  score: number;           // 0-100\n  level: \"missing\" | \"weak\" | \"ok\" | \"strong\";\n  feedback: string;        // short feedback specific to this criterion\n\x7d\n\ninterface Analysis \x7b\n  overallScore: number;      // 0-100\n  overallLabel: string;      // short summary e.g. \"Excellent prompt\", \"Needs work\"\n  criteria: CriterionScore[];\n  suggestions: string[];     // concrete, actionable suggestions for improvement\n  improvedPrompt: string;    // a rewritten, improved version of the user prompt\n\x7d;\n\nRules:\n- Grade strictly but fairly.\n- Use 0-100 for all scores.\n- Always fill all 5 criteria with the exact ids listed.\n- The improvedPrompt must preserve the user\x27s intent but upgrade clarity, structure, and explicitness using the criteria above.\n- Respond with valid JSON only."

/-- The single-turn content sent to the model for a given prompt:
the rubric instruction concatenated with the user's raw prompt text. -/
def buildContent (prompt : String) : String :=
  systemInstruction ++ "\n\nUSER_PROMPT:\n" ++ prompt

/-- Is the model credential usable?  The route computes
`genAI = apiKey ? new GoogleGenerativeAI(apiKey) : null` at module load and
the handler rejects when `!genAI || !apiKey`; both collapse to the
truthiness of the environment value (`none` = unset, `some ""` = empty,
hence falsy). -/
def apiKeyConfigured : Option String → Bool
  | none => false
  | some s => s != ""

/-- Extraction and validation of the `prompt` field:
`const { prompt } = (body || {})` followed by
`!prompt || typeof prompt !== "string" || !prompt.trim()`.
The destructuring yields the field only when the body is an object holding
it (falsy bodies are replaced by `{}`; other non-objects have no `prompt`
property); the guard then passes exactly the strings that are non-empty
after trimming. -/
def promptOf (body : Json) : Option String :=
  match jsonField body "prompt" with
  | some (Json.str s) => if jsTrim s = "" then none else some s
  | _ => none

/-- The outcome of the awaited model invocation: the reply text, or a
thrown error (network/auth/quota failure). -/
inductive UpstreamResult where
  | fail : UpstreamResult
  | ok (text : String) : UpstreamResult

/-- An HTTP response of the endpoint: status code and JSON body.  (Every
response of the route also carries the constant header
`Content-Type: application/json`, which is not modelled.) -/
structure HttpResponse where
  status : Nat
  body : Json
deriving Repr

/-- Body of the 500 response for a missing credential. -/
def missingKeyBody : Json :=
  Json.obj [("error",
    Json.str "Missing GOOGLE_API_KEY. Set it in your server environment (e.g. .env.local).")]

/-- Body of the 400 response for an unparseable request body. -/
def invalidBodyBody : Json :=
  Json.obj [("error", Json.str "Invalid JSON body.")]

/-- Body of the 400 response for a missing or invalid `prompt` field. -/
def promptRequiredBody : Json :=
  Json.obj [("error", Json.str "Field \x27prompt\x27 (non-empty string) is required.")]

/-- Body of the 500 response for a failed model invocation. -/
def geminiFailBody : Json :=
  Json.obj [("error", Json.str "Error while calling Gemini API.")]

/-- Body of the 502 response for an upstream reply that is not valid JSON
after cleaning; carries the cleaned text under `raw`. -/
def upstreamInvalidBody (raw : String) : Json :=
  Json.obj [("error", Json.str "Gemini returned an invalid JSON response."),
            ("raw", Json.str raw)]

/-- The `POST` handler of `/api/analyze`.  `apiKey` is the environment
credential, `rawBody` the request body text (`request.json()` is
`JSON.parse` of it), and `upstream` maps the content sent to the model to
the invocation's outcome.  The branches follow the route in order:
credential check, body parse, prompt validation, model call, fence
stripping and JSON parse of the reply, and the verbatim 200 pass-through
of the parsed value. -/
def POST (apiKey : Option String) (rawBody : String)
    (upstream : String → UpstreamResult) : HttpResponse :=
  if apiKeyConfigured apiKey = false then ⟨500, missingKeyBody⟩
  else
    match jsonParse rawBody with
    | none => ⟨400, invalidBodyBody⟩
    | some body =>
      match promptOf body with
      | none => ⟨400, promptRequiredBody⟩
      | some p =>
        match upstream (buildContent p) with
        | UpstreamResult.fail => ⟨500, geminiFailBody⟩
        | UpstreamResult.ok text =>
          let cleaned := cleanModelText text
          match jsonParse cleaned with
          | none => ⟨502, upstreamInvalidBody cleaned⟩
          | some json => ⟨200, json⟩

/-- One rubric criterion of the Client Surface's fixed checklist. -/
structure Criterion where
  id : String
  label : String
  description : String
  hint : String
deriving Repr

/-- The fixed five-criterion checklist of the Client Surface. -/
def criteria : List Criterion :=
  [{ id := "context", label := "Context",
     description := "Background info that gives the AI situational awareness.",
     hint := "Add who you are, who the audience is, and where this will be used." },
   { id := "goal", label := "Goal",
     description := "Clear outcome or objective for the AI.",
     hint := "Finish the sentence: \"By the end, I want the AI to help me...\"" },
   { id := "format", label := "Format",
     description := "Preferred structure of the answer (list, table, essay, slides…).",
     hint := "Specify bullets, sections, or tables you want." },
   { id := "constraints", label := "Constraints",
     description := "Limits like length, tone, level, or style.",
     hint := "Mention tone (simple, friendly, formal), level, or word limit." },
   { id := "examples", label := "Examples",
     description := "Reference examples that show what good looks like.",
     hint := "Paste 1–2 short examples of the style or structure you like." }]

/-- The Client Surface's local state: the editable prompt text, the last
successful analysis (the raw JSON the 200 response carried, `null` before
the first success), the busy flag, the last error message, and the
copied indicator. -/
structure ClientState where
  prompt : String
  analysis : Option Json
  isAnalyzing : Bool
  error : Option String
  copied : Bool
deriving Repr

/-- The outcome of the client's fetch of `/api/analyze`:
either the fetch (or `response.json()`) threw — with the thrown `Error`'s
message, or `none` when the thrown value was not an `Error` — or a
response arrived whose body parsed, with its `response.ok` flag. -/
inductive FetchOutcome where
  | fetchThrew (msg : Option String) : FetchOutcome
  | got (ok : Bool) (data : Json) : FetchOutcome

/-- Is a JSON numeral token the number zero (the one falsy JS number a
JSON numeral can denote)? -/
def numTokenZero (tok : String) : Bool :=
  (tok.data.takeWhile (fun c => !(c == 'e') && !(c == 'E'))).all
    (fun c => !c.isDigit || c == '0')

/-- Conversion of a JSON value to a string as JavaScript's `String(x)`
performs it when `new Error(x)` stores a message.  (Two approximations in
corners no claim reaches: numbers keep their numeral token rather than JS
numeral re-formatting, and `null` array elements print as `null` rather
than the empty string a JS join produces.) -/
def jsToString : Json → String
  | Json.str s => s
  | Json.null => "null"
  | Json.bool true => "true"
  | Json.bool false => "false"
  | Json.num tok => tok
  | Json.arr xs => String.intercalate "," (xs.attach.map (fun x => jsToString x.1))
  | Json.obj _ => "[object Object]"
termination_by j => sizeOf j
decreasing_by
  have h := List.sizeOf_lt_of_mem x.2
  simp only [Json.arr.sizeOf_spec]
  omega

/-- The message shown for a non-ok response:
`data?.error ?? "Failed to analyze prompt."` passed through `new Error`.
A missing, `undefined` or `null` field falls back to the generic text. -/
def errorMessageOf (data : Json) : String :=
  match jsonField data "error" with
  | none => "Failed to analyze prompt."
  | some Json.null => "Failed to analyze prompt."
  | some v => jsToString v

/-- The message `handleAnalyze` stores on a failed attempt. -/
def failMessage : FetchOutcome → String
  | FetchOutcome.fetchThrew msg => msg.getD "Unknown error while analyzing."
  | FetchOutcome.got _ data => errorMessageOf data

/-- Did the attempt fail (a thrown error, or a non-2xx response)? -/
def failedOutcome : FetchOutcome → Bool
  | FetchOutcome.fetchThrew _ => true
  | FetchOutcome.got ok _ => !ok

/-- The `handleAnalyze` action, given the outcome of the fetch it would
perform.  A blank prompt sets a local validation error and returns before
any request is made (so the outcome argument is ignored).  Otherwise the
handler sets the busy flag and clears the error, awaits the fetch, stores
the parsed body and resets the copied flag on success, stores the error
message on failure, and always ends with the busy flag cleared. -/
def handleAnalyze (s : ClientState) (o : FetchOutcome) : ClientState :=
  if jsTrim s.prompt = "" then { s with error := some "Write a prompt first." }
  else
    match o with
    | FetchOutcome.fetchThrew msg =>
      { s with isAnalyzing := false,
               error := some (msg.getD "Unknown error while analyzing.") }
    | FetchOutcome.got ok data =>
      if ok then
        { s with analysis := some data, copied := false,
                 isAnalyzing := false, error := none }
      else
        { s with isAnalyzing := false, error := some (errorMessageOf data) }

/-- The `handleUseImproved` action.  Without an analysis it returns; with
one it tests `analysis.improvedPrompt && analysis.improvedPrompt.trim()`
and replaces the prompt text only when the field is a string that is
non-blank after trimming.  A truthy non-string field would make the
`.trim()` call throw a `TypeError`; that (unreached by the claims) case is
modelled as `none`. -/
def handleUseImproved (s : ClientState) : Option ClientState :=
  match s.analysis with
  | none => some s
  | some a =>
    match jsonField a "improvedPrompt" with
    | none => some s
    | some Json.null => some s
    | some (Json.bool b) => if b then none else some s
    | some (Json.num tok) => if numTokenZero tok then some s else none
    | some (Json.str t) =>
      if jsTrim t = "" then some s else some { s with prompt := t }
    | some (Json.arr _) => none
    | some (Json.obj _) => none

/-- The placeholder row rendered for a criterion before any analysis:
score 0, level `missing`, the criterion's description as feedback. -/
def placeholderCriterion (c : Criterion) : Json :=
  Json.obj [("id", Json.str c.id), ("label", Json.str c.label),
            ("score", Json.num "0"), ("level", Json.str "missing"),
            ("feedback", Json.str c.description)]

/-- The overall score the page shows: `analysis?.overallScore ?? 0`. -/
def overallScoreShown (s : ClientState) : Json :=
  match s.analysis with
  | none => Json.num "0"
  | some a =>
    match jsonField a "overallScore" with
    | none => Json.num "0"
    | some Json.null => Json.num "0"
    | some v => v

/-- The criterion rows the page shows:
`analysis?.criteria ?? criteria.map(...)` — the analysis' `criteria`
value when present, else the five zero-valued placeholders. -/
def criteriaScoresShown (s : ClientState) : Json :=
  match s.analysis with
  | none => Json.arr (criteria.map placeholderCriterion)
  | some a =>
    match jsonField a "criteria" with
    | none => Json.arr (criteria.map placeholderCriterion)
    | some Json.null => Json.arr (criteria.map placeholderCriterion)
    | some v => v

/-- Characters that could extend a completed JSON number token; an
extension whose head is none of them (or no extension) leaves every
token's parse unchanged. -/
def extSafe : List Char → Bool
  | [] => true
  | c :: _ => !(c.isDigit || c == '.' || c == 'e' || c == 'E')

/-- No leading digit. -/
def noDigitHead : List Char → Bool
  | [] => true
  | c :: _ => !c.isDigit

/-- No leading digit or dot. -/
def noFracHead : List Char → Bool
  | [] => true
  | c :: _ => !(c.isDigit || c == '.')

/-- No leading digit or exponent letter. -/
def noExpHead : List Char → Bool
  | [] => true
  | c :: _ => !(c.isDigit || c == 'e' || c == 'E')

/-- Characters that can start a JSON value. -/
def valueStart (c : Char) : Bool := !isWs c && !(c == ']') && !(c == '`')

/-- Characters that can end a consumed JSON value. -/
def endOk (c : Char) : Bool := !isWs c && !(c == '`')

/-- A consumed value prefix can be re-parsed in front of any extension
whose head cannot extend a number token, given enough fuel. -/
def ValueReparse (v : Json) (pre : List Char) : Prop :=
  ∀ f ext, 2 * (pre.length + ext.length) + 1 ≤ f → extSafe ext = true →
    parseValue f (pre ++ ext) = some (v, ext)

/-- Soundness of `parseValue` at a given fuel: a successful parse consumed
a nonempty prefix that starts with a value-start character, ends with a
non-whitespace non-backtick character, and can be re-parsed before any
safe extension. -/
def ValueSpec (fuel : Nat) : Prop :=
  ∀ cs v rest, parseValue fuel cs = some (v, rest) →
    ∃ pre, cs = pre ++ rest ∧
      (∃ c t, pre = c :: t ∧ valueStart c = true) ∧
      (∃ t c, pre = t ++ [c] ∧ endOk c = true) ∧
      ValueReparse v pre

def fenceWrap (s : String) : String := "```json\n" ++ s ++ "\n```"

/-- C1: with the credential configured, a body whose `prompt` is a string
that is non-empty after trimming, and an upstream reply whose cleaned
(trimmed and fence-stripped) text parses as JSON value `v`, the endpoint
responds 200 with body exactly `v` — whatever shape `v` has: no
validation, clamping, mutation or reordering happens between the parse and
the response. -/
theorem c1_endpoint_passthrough (k : Option String) (rawBody : String) (bodyJson : Json)
    (p : String) (u : String → UpstreamResult) (text : String) (v : Json)
    (hk : apiKeyConfigured k = true)
    (hb : jsonParse rawBody = some bodyJson)
    (hp : jsonField bodyJson "prompt" = some (Json.str p))
    (hne : jsTrim p ≠ "")
    (hu : u (buildContent p) = UpstreamResult.ok text)
    (hj : jsonParse (cleanModelText text) = some v) :
    POST k rawBody u = ⟨200, v⟩ := by
  unfold POST
  simp [hk, hb, promptOf, hp, hne, hu, hj]

/-- Witness for C1 at a concrete request: the upstream object is forwarded
verbatim even though it does not conform to the Analysis shape. -/
theorem c1_endpoint_passthrough_witness :
    POST (some "k") "\x7b\"prompt\":\"hi\"\x7d"
        (fun _ => UpstreamResult.ok "```json\n\x7b\"a\":1\x7d\n```")
      = ⟨200, Json.obj [("a", Json.num "1")]⟩ :=
  c1_endpoint_passthrough (some "k") _ (Json.obj [("prompt", Json.str "hi")]) "hi" _
    "```json\n\x7b\"a\":1\x7d\n```" (Json.obj [("a", Json.num "1")])
    rfl rfl rfl (by decide) rfl rfl

/-- C2: without a usable credential the endpoint answers the 500
configuration error whatever the request body is — in particular a
malformed body still gets the 500, never a 400, since the body is not
examined on this path. -/
theorem c2_missing_credential_short_circuit (k : Option String) (rawBody : String)
    (u : String → UpstreamResult) (hk : apiKeyConfigured k = false) :
    POST k rawBody u = ⟨500, missingKeyBody⟩ := by
  unfold POST
  simp [hk]

/-- Witness for C2: an unset credential and a malformed (non-JSON) body
still produce the 500 configuration error. -/
theorem c2_missing_credential_short_circuit_witness :
    POST none "this is not JSON" (fun _ => UpstreamResult.fail)
      = ⟨500, missingKeyBody⟩ :=
  c2_missing_credential_short_circuit none "this is not JSON" _ rfl

/-- C4: an upstream reply whose cleaned (trimmed, fence-stripped) text does
not parse as JSON yields a 502 whose body carries the distinct
upstream-invalid-JSON message and the cleaned text verbatim under `raw`. -/
theorem c4_upstream_invalid_json_502 (k : Option String) (rawBody : String) (bodyJson : Json)
    (p : String) (u : String → UpstreamResult) (text : String)
    (hk : apiKeyConfigured k = true)
    (hb : jsonParse rawBody = some bodyJson)
    (hp : promptOf bodyJson = some p)
    (hu : u (buildContent p) = UpstreamResult.ok text)
    (hj : jsonParse (cleanModelText text) = none) :
    POST k rawBody u = ⟨502, upstreamInvalidBody (cleanModelText text)⟩ := by
  unfold POST
  simp [hk, hb, hp, hu, hj]

/-- Witness for C4 at a concrete non-JSON upstream reply. -/
theorem c4_upstream_invalid_json_502_witness :
    POST (some "k") "\x7b\"prompt\":\"hi\"\x7d"
        (fun _ => UpstreamResult.ok "not JSON today")
      = ⟨502, upstreamInvalidBody "not JSON today"⟩ :=
  c4_upstream_invalid_json_502 (some "k") _ (Json.obj [("prompt", Json.str "hi")]) "hi" _
    "not JSON today" rfl rfl rfl rfl rfl

/-- C5: for a prompt that is empty after trimming, the endpoint (with
credential configured) answers 400 naming the `prompt` field, and the
Client Surface's Analyze action only sets the local validation error —
the resulting state does not depend on any fetch outcome, i.e. no request
is issued. -/
theorem c5_blank_prompt_rejected (p : String) (hp : jsTrim p = "") :
    (∀ (k : Option String) (rawBody : String) (bodyJson : Json)
       (u : String → UpstreamResult),
      apiKeyConfigured k = true → jsonParse rawBody = some bodyJson →
      jsonField bodyJson "prompt" = some (Json.str p) →
      POST k rawBody u = ⟨400, promptRequiredBody⟩) ∧
    (∀ (s : ClientState) (o o' : FetchOutcome), s.prompt = p →
      handleAnalyze s o = { s with error := some "Write a prompt first." } ∧
      handleAnalyze s o = handleAnalyze s o') := by
  constructor
  · intro k rawBody bodyJson u hk hb hfield
    unfold POST
    simp [hk, hb, promptOf, hfield, hp]
  · intro s o o' hs
    unfold handleAnalyze
    simp [hs, hp]

/-- Witness for C5 at a whitespace-only prompt: 400 from the endpoint,
local error and no dependence on the network on the client. -/
theorem c5_blank_prompt_rejected_witness :
    POST (some "k") "\x7b\"prompt\":\" \\t \"\x7d" (fun _ => UpstreamResult.fail)
        = ⟨400, promptRequiredBody⟩ ∧
    handleAnalyze ⟨" \t ", none, false, none, false⟩ (FetchOutcome.fetchThrew none)
        = ⟨" \t ", none, false, some "Write a prompt first.", false⟩ :=
  ⟨(c5_blank_prompt_rejected " \t " rfl).1 (some "k") _
      (Json.obj [("prompt", Json.str " \t ")]) _ rfl rfl rfl,
   ((c5_blank_prompt_rejected " \t " rfl).2 ⟨" \t ", none, false, none, false⟩
      (FetchOutcome.fetchThrew none) (FetchOutcome.fetchThrew none) rfl).1⟩

/-- C10: a request body that parses as JSON but has no `prompt` property —
every non-object (`null`, booleans, numbers, strings, arrays) and every
object without that key — is answered with the same 400
`Field 'prompt' (non-empty string) is required.` error; the handler is
total on such bodies (the `(body || {})` default and property access never
throw). -/
theorem c10_non_object_body_400 (k : Option String) (rawBody : String) (bodyJson : Json)
    (u : String → UpstreamResult)
    (hk : apiKeyConfigured k = true)
    (hb : jsonParse rawBody = some bodyJson)
    (hnp : jsonField bodyJson "prompt" = none) :
    POST k rawBody u = ⟨400, promptRequiredBody⟩ := by
  unfold POST
  simp [hk, hb, promptOf, hnp]

/-- Witness for C10 on the five body shapes the claim lists and an object
without the field. -/
theorem c10_non_object_body_400_witness :
    POST (some "k") "null" (fun _ => UpstreamResult.fail) = ⟨400, promptRequiredBody⟩ ∧
    POST (some "k") "true" (fun _ => UpstreamResult.fail) = ⟨400, promptRequiredBody⟩ ∧
    POST (some "k") "5" (fun _ => UpstreamResult.fail) = ⟨400, promptRequiredBody⟩ ∧
    POST (some "k") "\"prompt\"" (fun _ => UpstreamResult.fail) = ⟨400, promptRequiredBody⟩ ∧
    POST (some "k") "[1]" (fun _ => UpstreamResult.fail) = ⟨400, promptRequiredBody⟩ ∧
    POST (some "k") "\x7b\"other\":1\x7d" (fun _ => UpstreamResult.fail)
      = ⟨400, promptRequiredBody⟩ :=
  ⟨c10_non_object_body_400 (some "k") "null" Json.null _ rfl rfl rfl,
   c10_non_object_body_400 (some "k") "true" (Json.bool true) _ rfl rfl rfl,
   c10_non_object_body_400 (some "k") "5" (Json.num "5") _ rfl rfl rfl,
   c10_non_object_body_400 (some "k") "\"prompt\"" (Json.str "prompt") _ rfl rfl rfl,
   c10_non_object_body_400 (some "k") "[1]" (Json.arr [Json.num "1"]) _ rfl rfl rfl,
   c10_non_object_body_400 (some "k") "\x7b\"other\":1\x7d"
     (Json.obj [("other", Json.num "1")]) _ rfl rfl rfl⟩

/-- C6: every response of the endpoint has status 200, 400, 500 or 502;
every non-200 body is a JSON object `‹error: message›`, with a `raw` field
added exactly on the 502 upstream-parse failure; and the statuses map to
the conditions as documented: 500 for a missing credential, 400 for an
unparseable body or a missing/invalid `prompt`, 500 for a failed model
invocation. -/
theorem c6_error_taxonomy (k : Option String) (rawBody : String)
    (u : String → UpstreamResult) :
    ((POST k rawBody u).status = 200 ∨ (POST k rawBody u).status = 400 ∨
     (POST k rawBody u).status = 500 ∨ (POST k rawBody u).status = 502) ∧
    ((POST k rawBody u).status ≠ 200 →
      (∃ m, (POST k rawBody u).body = Json.obj [("error", Json.str m)]) ∨
      (∃ m r, (POST k rawBody u).body = Json.obj [("error", Json.str m), ("raw", Json.str r)] ∧
        (POST k rawBody u).status = 502)) ∧
    (apiKeyConfigured k = false → POST k rawBody u = ⟨500, missingKeyBody⟩) ∧
    (apiKeyConfigured k = true → jsonParse rawBody = none →
      POST k rawBody u = ⟨400, invalidBodyBody⟩) ∧
    (∀ bodyJson, apiKeyConfigured k = true → jsonParse rawBody = some bodyJson →
      promptOf bodyJson = none → POST k rawBody u = ⟨400, promptRequiredBody⟩) ∧
    (∀ bodyJson p, apiKeyConfigured k = true → jsonParse rawBody = some bodyJson →
      promptOf bodyJson = some p → u (buildContent p) = UpstreamResult.fail →
      POST k rawBody u = ⟨500, geminiFailBody⟩) := by
  by_cases hk0 : apiKeyConfigured k = false
  case pos =>
    have hP : POST k rawBody u = ⟨500, missingKeyBody⟩ := by unfold POST; simp [hk0]
    refine ⟨Or.inr (Or.inr (Or.inl (by rw [hP]))), ?_, fun _ => hP, ?_, ?_, ?_⟩
    · intro _
      exact Or.inl ⟨"Missing GOOGLE_API_KEY. Set it in your server environment (e.g. .env.local).",
        by rw [hP]; rfl⟩
    · intro h _
      rw [h] at hk0
      exact Bool.noConfusion hk0
    · intro _ h _ _
      rw [h] at hk0
      exact Bool.noConfusion hk0
    · intro _ _ h _ _ _
      rw [h] at hk0
      exact Bool.noConfusion hk0
  case neg =>
    have hk1 : apiKeyConfigured k = true := by
      cases h : apiKeyConfigured k
      · exact absurd h hk0
      · rfl
    cases hb : jsonParse rawBody with
    | none =>
      have hP : POST k rawBody u = ⟨400, invalidBodyBody⟩ := by unfold POST; simp [hk1, hb]
      refine ⟨Or.inr (Or.inl (by rw [hP])), ?_, ?_, fun _ _ => hP, ?_, ?_⟩
      · intro _
        exact Or.inl ⟨"Invalid JSON body.", by rw [hP]; rfl⟩
      · intro h
        rw [h] at hk1
        exact Bool.noConfusion hk1
      · intro _ _ hb'
        exact Option.noConfusion hb'
      · intro _ _ _ hb'
        exact Option.noConfusion hb'
    | some bj =>
      cases hpo : promptOf bj with
      | none =>
        have hP : POST k rawBody u = ⟨400, promptRequiredBody⟩ := by
          unfold POST; simp [hk1, hb, hpo]
        refine ⟨Or.inr (Or.inl (by rw [hP])), ?_, ?_, ?_, fun _ _ _ _ => hP, ?_⟩
        · intro _
          exact Or.inl ⟨"Field \x27prompt\x27 (non-empty string) is required.", by rw [hP]; rfl⟩
        · intro h
          rw [h] at hk1
          exact Bool.noConfusion hk1
        · intro _ hb'
          exact Option.noConfusion hb'
        · intro bj' p' _ hb' hpo' _
          injection hb' with hbj
          subst hbj
          rw [hpo] at hpo'
          exact Option.noConfusion hpo'
      | some p =>
        cases hu : u (buildContent p) with
        | fail =>
          have hP : POST k rawBody u = ⟨500, geminiFailBody⟩ := by
            unfold POST; simp [hk1, hb, hpo, hu]
          refine ⟨Or.inr (Or.inr (Or.inl (by rw [hP]))), ?_, ?_, ?_, ?_,
            fun _ _ _ _ _ _ => hP⟩
          · intro _
            exact Or.inl ⟨"Error while calling Gemini API.", by rw [hP]; rfl⟩
          · intro h
            rw [h] at hk1
            exact Bool.noConfusion hk1
          · intro _ hb'
            exact Option.noConfusion hb'
          · intro bj' _ hb' hpo'
            injection hb' with hbj
            subst hbj
            rw [hpo] at hpo'
            exact Option.noConfusion hpo'
        | ok text =>
          cases hj : jsonParse (cleanModelText text) with
          | none =>
            have hP : POST k rawBody u = ⟨502, upstreamInvalidBody (cleanModelText text)⟩ := by
              unfold POST; simp [hk1, hb, hpo, hu, hj]
            refine ⟨Or.inr (Or.inr (Or.inr (by rw [hP]))), ?_, ?_, ?_, ?_, ?_⟩
            · intro _
              exact Or.inr ⟨"Gemini returned an invalid JSON response.", cleanModelText text,
                by rw [hP]; exact ⟨rfl, rfl⟩⟩
            · intro h
              rw [h] at hk1
              exact Bool.noConfusion hk1
            · intro _ hb'
              exact Option.noConfusion hb'
            · intro bj' _ hb' hpo'
              injection hb' with hbj
              subst hbj
              rw [hpo] at hpo'
              exact Option.noConfusion hpo'
            · intro bj' p' _ hb' hpo' hu'
              injection hb' with hbj
              subst hbj
              rw [hpo] at hpo'
              injection hpo' with hp'
              subst hp'
              rw [hu] at hu'
              exact UpstreamResult.noConfusion hu'
          | some v =>
            have hP : POST k rawBody u = ⟨200, v⟩ := by
              unfold POST; simp [hk1, hb, hpo, hu, hj]
            refine ⟨Or.inl (by rw [hP]), ?_, ?_, ?_, ?_, ?_⟩
            · intro h200
              rw [hP] at h200
              exact absurd rfl h200
            · intro h
              rw [h] at hk1
              exact Bool.noConfusion hk1
            · intro _ hb'
              exact Option.noConfusion hb'
            · intro bj' _ hb' hpo'
              injection hb' with hbj
              subst hbj
              rw [hpo] at hpo'
              exact Option.noConfusion hpo'
            · intro bj' p' _ hb' hpo' hu'
              injection hb' with hbj
              subst hbj
              rw [hpo] at hpo'
              injection hpo' with hp'
              subst hp'
              rw [hu] at hu'
              exact UpstreamResult.noConfusion hu'

/-- Witness for C6 at a concrete request without a credential. -/
theorem c6_error_taxonomy_witness :
    POST none "\x7b\x7d" (fun _ => UpstreamResult.fail) = ⟨500, missingKeyBody⟩ :=
  (c6_error_taxonomy none "\x7b\x7d" (fun _ => UpstreamResult.fail)).2.2.1 rfl

/-- C7: after a successful analysis whose `improvedPrompt` is a string
that is non-blank after trimming, the use-improved action replaces the
prompt text with exactly that string; an empty or whitespace-only string,
a missing field, or no analysis at all leaves the state (in particular the
prompt text) unchanged. -/
theorem c7_use_improved (s : ClientState) :
    (∀ a t, s.analysis = some a → jsonField a "improvedPrompt" = some (Json.str t) →
      jsTrim t ≠ "" → handleUseImproved s = some { s with prompt := t }) ∧
    (∀ a t, s.analysis = some a → jsonField a "improvedPrompt" = some (Json.str t) →
      jsTrim t = "" → handleUseImproved s = some s) ∧
    (∀ a, s.analysis = some a → jsonField a "improvedPrompt" = none →
      handleUseImproved s = some s) ∧
    (s.analysis = none → handleUseImproved s = some s) := by
  refine ⟨?_, ?_, ?_, ?_⟩
  · intro a t ha hf ht
    unfold handleUseImproved
    simp [ha, hf, ht]
  · intro a t ha hf ht
    unfold handleUseImproved
    simp [ha, hf, ht]
  · intro a ha hf
    unfold handleUseImproved
    simp [ha, hf]
  · intro h
    unfold handleUseImproved
    simp [h]

/-- Witness for C7: a non-blank improved prompt is adopted verbatim, a
blank one is not. -/
theorem c7_use_improved_witness :
    handleUseImproved ⟨"old", some (Json.obj [("improvedPrompt", Json.str "better X")]),
        false, none, false⟩
      = some ⟨"better X", some (Json.obj [("improvedPrompt", Json.str "better X")]),
        false, none, false⟩ ∧
    handleUseImproved ⟨"old", some (Json.obj [("improvedPrompt", Json.str "  ")]),
        false, none, false⟩
      = some ⟨"old", some (Json.obj [("improvedPrompt", Json.str "  ")]),
        false, none, false⟩ :=
  ⟨(c7_use_improved _).1 (Json.obj [("improvedPrompt", Json.str "better X")]) "better X"
      rfl rfl (by decide),
   (c7_use_improved _).2.1 (Json.obj [("improvedPrompt", Json.str "  ")]) "  " rfl rfl rfl⟩

/-- C8: a failed analysis attempt — a thrown fetch/parse error or a
non-2xx response — only stores the error message and clears the busy
flag: the stored analysis, the prompt and the copied flag keep their
previous values, and the message is the server's `error` string when the
body carries one, else the generic fallback. -/
theorem c8_failure_preserves_state (s : ClientState) (o : FetchOutcome)
    (hp : jsTrim s.prompt ≠ "") (hf : failedOutcome o = true) :
    handleAnalyze s o = { s with isAnalyzing := false, error := some (failMessage o) } ∧
    (handleAnalyze s o).analysis = s.analysis ∧
    (handleAnalyze s o).prompt = s.prompt ∧
    (handleAnalyze s o).copied = s.copied ∧
    (∀ d m, o = FetchOutcome.got false d → jsonField d "error" = some (Json.str m) →
      failMessage o = m) ∧
    (∀ d, o = FetchOutcome.got false d → jsonField d "error" = none →
      failMessage o = "Failed to analyze prompt.") := by
  have hmain : handleAnalyze s o
      = { s with isAnalyzing := false, error := some (failMessage o) } := by
    cases o with
    | fetchThrew msg =>
      unfold handleAnalyze failMessage
      simp [hp]
    | got ok d =>
      cases ok with
      | false =>
        unfold handleAnalyze failMessage
        simp [hp]
      | true => simp [failedOutcome] at hf
  refine ⟨hmain, by rw [hmain], by rw [hmain], by rw [hmain], ?_, ?_⟩
  · intro d m ho he
    subst ho
    unfold failMessage errorMessageOf
    simp [he, jsToString]
  · intro d ho he
    subst ho
    unfold failMessage errorMessageOf
    simp [he]

/-- Witness for C8: a 502-style failure with a server message leaves a
previously stored analysis untouched and surfaces the message. -/
theorem c8_failure_preserves_state_witness :
    handleAnalyze ⟨"hi", some (Json.str "old"), true, none, true⟩
        (FetchOutcome.got false (Json.obj [("error", Json.str "boom")]))
      = ⟨"hi", some (Json.str "old"), false, some "boom", true⟩ := by
  have h := c8_failure_preserves_state ⟨"hi", some (Json.str "old"), true, none, true⟩
    (FetchOutcome.got false (Json.obj [("error", Json.str "boom")])) (by decide) rfl
  rw [h.1, h.2.2.2.2.1 (Json.obj [("error", Json.str "boom")]) "boom" rfl rfl]

/-- C9: before any analysis has run, the page shows the overall score 0
and the five fixed criteria — context, goal, format, constraints,
examples — each with score 0 and level `missing`. -/
theorem c9_placeholder_rendering (s : ClientState) (h : s.analysis = none) :
    overallScoreShown s = Json.num "0" ∧
    criteriaScoresShown s = Json.arr
      [Json.obj [("id", Json.str "context"), ("label", Json.str "Context"),
         ("score", Json.num "0"), ("level", Json.str "missing"),
         ("feedback", Json.str "Background info that gives the AI situational awareness.")],
       Json.obj [("id", Json.str "goal"), ("label", Json.str "Goal"),
         ("score", Json.num "0"), ("level", Json.str "missing"),
         ("feedback", Json.str "Clear outcome or objective for the AI.")],
       Json.obj [("id", Json.str "format"), ("label", Json.str "Format"),
         ("score", Json.num "0"), ("level", Json.str "missing"),
         ("feedback", Json.str "Preferred structure of the answer (list, table, essay, slides…).")],
       Json.obj [("id", Json.str "constraints"), ("label", Json.str "Constraints"),
         ("score", Json.num "0"), ("level", Json.str "missing"),
         ("feedback", Json.str "Limits like length, tone, level, or style.")],
       Json.obj [("id", Json.str "examples"), ("label", Json.str "Examples"),
         ("score", Json.num "0"), ("level", Json.str "missing"),
         ("feedback", Json.str "Reference examples that show what good looks like.")]] := by
  constructor
  · unfold overallScoreShown
    simp [h]
  · unfold criteriaScoresShown
    simp [h, criteria, placeholderCriterion]

/-- Witness for C9 at the initial state. -/
theorem c9_placeholder_rendering_witness :
    overallScoreShown ⟨"", none, false, none, false⟩ = Json.num "0" :=
  (c9_placeholder_rendering ⟨"", none, false, none, false⟩ rfl).1

/-- Counterexample for C3 as stated: a plain ``` code fence (the common
fence marker without the `json` tag) is not stripped, so the fenced reply
gets a 502 while the same JSON unfenced gets a 200 — the responses differ. -/
theorem c3_counterexample_plain_fence :
    POST (some "key") "\x7b\"prompt\":\"hi\"\x7d"
        (fun _ => UpstreamResult.ok "```\n\x7b\x7d\n```")
      ≠ POST (some "key") "\x7b\"prompt\":\"hi\"\x7d"
        (fun _ => UpstreamResult.ok "\x7b\x7d") := by
  intro h
  exact absurd (congrArg HttpResponse.status h) (by decide)

/-! Parser lemmas used to settle the fence-stripping claim. -/

theorem skipWs_append_allWs (a b : List Char) (h : a.all isWs = true) :
    skipWs (a ++ b) = skipWs b := by
  induction a with
  | nil => rfl
  | cons c t ih =>
    simp only [List.all_cons, Bool.and_eq_true] at h
    simp [skipWs, h.1, ih h.2]

theorem skipWs_cons_not (c : Char) (r : List Char) (h : isWs c = false) :
    skipWs (c :: r) = c :: r := by
  simp [skipWs, h]

theorem skipWs_decomp (cs : List Char) :
    ∃ a, cs = a ++ skipWs cs ∧ a.all isWs = true := by
  induction cs with
  | nil => exact ⟨[], rfl, rfl⟩
  | cons c t ih =>
    by_cases h : isWs c = true
    · obtain ⟨a, ha, hall⟩ := ih
      refine ⟨c :: a, ?_, ?_⟩
      · simp [skipWs, h]
        exact ha
      · simp [hall, h]
    · have h' : isWs c = false := by
        cases hc : isWs c
        · rfl
        · exact absurd hc h
      exact ⟨[], by simp [skipWs, h'], rfl⟩

theorem skipWs_head_not (cs : List Char) (c : Char) (r : List Char)
    (h : skipWs cs = c :: r) : isWs c = false := by
  induction cs with
  | nil => simp [skipWs] at h
  | cons c' t ih =>
    by_cases hc : isWs c' = true
    · simp [skipWs, hc] at h
      exact ih h
    · have h' : isWs c' = false := by
        cases hcc : isWs c'
        · rfl
        · exact absurd hcc hc
      rw [skipWs_cons_not _ _ h'] at h
      cases h
      exact h'

theorem skipWs_eq_nil_allWs (cs : List Char) (h : skipWs cs = []) :
    cs.all isWs = true := by
  obtain ⟨a, ha, hall⟩ := skipWs_decomp cs
  rw [h] at ha
  simp at ha
  rw [ha]
  exact hall

theorem skipWs_append_of_cons (cs : List Char) (c : Char) (r ext : List Char)
    (h : skipWs cs = c :: r) : skipWs (cs ++ ext) = c :: (r ++ ext) := by
  obtain ⟨a, ha, hall⟩ := skipWs_decomp cs
  rw [h] at ha
  subst ha
  rw [List.append_assoc, skipWs_append_allWs _ _ hall]
  rw [List.cons_append]
  exact skipWs_cons_not _ _ (skipWs_head_not _ _ _ h)

theorem expectChars_sound (L cs r : List Char) (h : expectChars L cs = some r) :
    cs = L ++ r := by
  induction L generalizing cs with
  | nil =>
    simp [expectChars] at h
    simp [h]
  | cons l ls ih =>
    cases cs with
    | nil => simp [expectChars] at h
    | cons c t =>
      simp only [expectChars] at h
      by_cases hc : c = l
      · rw [if_pos hc] at h
        subst hc
        simp [ih t h]
      · rw [if_neg hc] at h
        exact absurd h (by simp)

theorem expectChars_append (L ext : List Char) :
    expectChars L (L ++ ext) = some ext := by
  induction L with
  | nil => rfl
  | cons l ls ih => simp [expectChars, ih]

theorem extSafe_noDigitHead (ext : List Char) (h : extSafe ext = true) :
    noDigitHead ext = true := by
  cases ext with
  | nil => rfl
  | cons c t =>
    simp [extSafe] at h
    simp [noDigitHead, h.1]

theorem extSafe_noFracHead (ext : List Char) (h : extSafe ext = true) :
    noFracHead ext = true := by
  cases ext with
  | nil => rfl
  | cons c t =>
    simp [extSafe] at h
    simp [noFracHead]
    tauto

theorem extSafe_noExpHead (ext : List Char) (h : extSafe ext = true) :
    noExpHead ext = true := by
  cases ext with
  | nil => rfl
  | cons c t =>
    simp [extSafe] at h
    simp [noExpHead]
    tauto

theorem takeDigits_sound (cs : List Char) :
    cs = (takeDigits cs).1 ++ (takeDigits cs).2 ∧
    (takeDigits cs).1.all Char.isDigit = true ∧
    noDigitHead (takeDigits cs).2 = true := by
  induction cs with
  | nil => exact ⟨rfl, rfl, rfl⟩
  | cons c t ih =>
    by_cases h : c.isDigit = true
    · simp only [takeDigits, h, if_true]
      refine ⟨by simpa using ih.1, by simp [h, ih.2.1], ih.2.2⟩
    · have h' : c.isDigit = false := by
        cases hc : c.isDigit
        · rfl
        · exact absurd hc h
      simp [takeDigits, h', noDigitHead]

theorem takeDigits_append (d ext : List Char) (hd : d.all Char.isDigit = true)
    (hext : noDigitHead ext = true) : takeDigits (d ++ ext) = (d, ext) := by
  induction d with
  | nil =>
    cases ext with
    | nil => rfl
    | cons c t =>
      simp [noDigitHead] at hext
      simp [takeDigits, hext]
  | cons c t ih =>
    simp only [List.all_cons, Bool.and_eq_true] at hd
    simp [takeDigits, hd.1, ih hd.2]

theorem parseIntPart_spec (cs ip r : List Char) (h : parseIntPart cs = some (ip, r)) :
    cs = ip ++ r ∧ ip.all Char.isDigit = true ∧ ip ≠ [] ∧
    ∀ ext, noDigitHead ext = true → parseIntPart (ip ++ ext) = some (ip, ext) := by
  cases cs with
  | nil => simp [parseIntPart] at h
  | cons c t =>
    by_cases h0 : c = '0'
    · subst h0
      simp only [parseIntPart, if_pos rfl] at h
      injection h with h
      injection h with h1 h2
      subst h1
      subst h2
      refine ⟨rfl, by decide, by simp, ?_⟩
      intro ext _
      simp [parseIntPart]
    · by_cases hd : c.isDigit = true
      · simp only [parseIntPart, if_neg h0, hd, if_true] at h
        injection h with h
        injection h with h1 h2
        subst h1
        have hs := takeDigits_sound t
        rw [h2] at hs
        refine ⟨by simpa using hs.1, by simp [hd, hs.2.1], by simp, ?_⟩
        intro ext hext
        have : takeDigits ((takeDigits t).1 ++ ext) = ((takeDigits t).1, ext) :=
          takeDigits_append _ _ hs.2.1 hext
        simp [parseIntPart, if_neg h0, hd, this]
      · have hd' : c.isDigit = false := by
          cases hc : c.isDigit
          · rfl
          · exact absurd hc hd
        simp [parseIntPart, if_neg h0, hd'] at h

theorem noFracHead_noDigitHead (ext : List Char) (h : noFracHead ext = true) :
    noDigitHead ext = true := by
  cases ext with
  | nil => rfl
  | cons c t =>
    simp [noFracHead] at h
    simp [noDigitHead, h.1]

theorem noExpHead_noDigitHead (ext : List Char) (h : noExpHead ext = true) :
    noDigitHead ext = true := by
  cases ext with
  | nil => rfl
  | cons c t =>
    simp [noExpHead] at h
    simp [noDigitHead]
    tauto

theorem all_digit_concat (l : List Char) (h1 : l ≠ []) (h2 : l.all Char.isDigit = true) :
    ∃ t b, l = t ++ [b] ∧ b.isDigit = true := by
  rcases List.eq_nil_or_concat l with h | ⟨t, b, hl⟩
  · exact absurd h h1
  · refine ⟨t, b, by simpa using hl, ?_⟩
    have hb : b ∈ l := by
      rw [hl]
      simp
    exact List.all_eq_true.mp h2 b hb

theorem parseFracPart_spec (cs fp r : List Char) (h : parseFracPart cs = some (fp, r)) :
    cs = fp ++ r ∧
    (fp = [] ∨ ∃ ds, fp = '.' :: ds ∧ ds ≠ [] ∧ ds.all Char.isDigit = true) ∧
    ∀ ext, noFracHead ext = true → parseFracPart (fp ++ ext) = some (fp, ext) := by
  have reparse_nil : ∀ ext, noFracHead ext = true → parseFracPart ext = some ([], ext) := by
    intro ext hext
    cases ext with
    | nil => rfl
    | cons c t =>
      simp [noFracHead] at hext
      simp [parseFracPart, hext.2]
  cases cs with
  | nil =>
    simp only [parseFracPart] at h
    injection h with h
    injection h with h1 h2
    subst h1
    subst h2
    exact ⟨rfl, Or.inl rfl, reparse_nil⟩
  | cons c t =>
    by_cases hdot : c = '.'
    · subst hdot
      simp only [parseFracPart, if_pos rfl] at h
      by_cases hnil : (takeDigits t).1 = []
      · rw [if_pos hnil] at h
        exact absurd h (by simp)
      · rw [if_neg hnil] at h
        injection h with h
        injection h with h1 h2
        have hs := takeDigits_sound t
        refine ⟨?_, ?_, ?_⟩
        · rw [← h1, ← h2]
          simpa using hs.1
        · exact Or.inr ⟨(takeDigits t).1, h1.symm, hnil, hs.2.1⟩
        · intro ext hext
          have htd : takeDigits ((takeDigits t).1 ++ ext) = ((takeDigits t).1, ext) :=
            takeDigits_append _ _ hs.2.1 (noFracHead_noDigitHead _ hext)
          rw [← h1]
          simp [parseFracPart, htd, hnil, h2]
    · simp only [parseFracPart, if_neg hdot] at h
      injection h with h
      injection h with h1 h2
      subst h1
      subst h2
      exact ⟨rfl, Or.inl rfl, reparse_nil⟩

theorem parseExpPart_spec (cs ep r : List Char) (h : parseExpPart cs = some (ep, r)) :
    cs = ep ++ r ∧
    (ep = [] ∨ ∃ e t1, ep = e :: t1 ∧ (e = 'e' ∨ e = 'E')) ∧
    (ep = [] ∨ ∃ t b, ep = t ++ [b] ∧ b.isDigit = true) ∧
    ∀ ext, noExpHead ext = true → parseExpPart (ep ++ ext) = some (ep, ext) := by
  have reparse_nil : ∀ ext, noExpHead ext = true → parseExpPart ext = some ([], ext) := by
    intro ext hext
    cases ext with
    | nil => rfl
    | cons c t =>
      simp [noExpHead] at hext
      have : ¬(c = 'e' ∨ c = 'E') := by tauto
      simp [parseExpPart, this]
  cases cs with
  | nil =>
    simp only [parseExpPart] at h
    injection h with h
    injection h with h1 h2
    subst h1
    subst h2
    exact ⟨rfl, Or.inl rfl, Or.inl rfl, reparse_nil⟩
  | cons c t =>
    by_cases he : c = 'e' ∨ c = 'E'
    · simp only [parseExpPart] at h
      rw [if_pos he] at h
      cases t with
      | nil => exact absurd h (by simp)
      | cons s cs2 =>
        dsimp only at h
        by_cases hs : s = '+' ∨ s = '-'
        · rw [if_pos hs] at h
          by_cases hnil : (takeDigits cs2).1 = []
          · rw [if_pos hnil] at h
            exact absurd h (by simp)
          · rw [if_neg hnil] at h
            injection h with h
            injection h with h1 h2
            have hsd := takeDigits_sound cs2
            obtain ⟨tb, b, hconc, hbd⟩ := all_digit_concat _ hnil hsd.2.1
            refine ⟨?_, ?_, ?_, ?_⟩
            · rw [← h1, ← h2]
              simp
              simpa using hsd.1
            · exact Or.inr ⟨c, s :: (takeDigits cs2).1, h1.symm, he⟩
            · refine Or.inr ⟨c :: s :: tb, b, ?_, hbd⟩
              rw [← h1, hconc]
              simp
            · intro ext hext
              have htd : takeDigits ((takeDigits cs2).1 ++ ext) = ((takeDigits cs2).1, ext) :=
                takeDigits_append _ _ hsd.2.1 (noExpHead_noDigitHead _ hext)
              rw [← h1]
              simp only [List.cons_append, List.append_assoc]
              simp only [parseExpPart]
              rw [if_pos he, if_pos hs, htd]
              simp [hnil, h2]
        · rw [if_neg hs] at h
          by_cases hnil : (takeDigits (s :: cs2)).1 = []
          · rw [if_pos hnil] at h
            exact absurd h (by simp)
          · rw [if_neg hnil] at h
            injection h with h
            injection h with h1 h2
            have hsd := takeDigits_sound (s :: cs2)
            obtain ⟨tb, b, hconc, hbd⟩ := all_digit_concat _ hnil hsd.2.1
            obtain ⟨d0, dt, hd0⟩ : ∃ d0 dt, (takeDigits (s :: cs2)).1 = d0 :: dt := by
              cases hx : (takeDigits (s :: cs2)).1 with
              | nil => exact absurd hx hnil
              | cons d0 dt => exact ⟨d0, dt, rfl⟩
            have hd0d : d0.isDigit = true := by
              have := hsd.2.1
              rw [hd0] at this
              simp at this
              exact this.1
            refine ⟨?_, ?_, ?_, ?_⟩
            · rw [← h1, ← h2]
              simpa using hsd.1
            · exact Or.inr ⟨c, (takeDigits (s :: cs2)).1, h1.symm, he⟩
            · refine Or.inr ⟨c :: tb, b, ?_, hbd⟩
              rw [← h1, hconc]
              simp
            · intro ext hext
              have htd : takeDigits ((takeDigits (s :: cs2)).1 ++ ext)
                  = ((takeDigits (s :: cs2)).1, ext) :=
                takeDigits_append _ _ hsd.2.1 (noExpHead_noDigitHead _ hext)
              have hd0s : ¬(d0 = '+' ∨ d0 = '-') := by
                intro hx
                cases hx with
                | inl hx => subst hx; exact absurd hd0d (by decide)
                | inr hx => subst hx; exact absurd hd0d (by decide)
              rw [← h1, hd0]
              simp only [List.cons_append]
              simp only [parseExpPart]
              rw [if_pos he, if_neg hd0s]
              rw [hd0] at htd
              simp only [List.cons_append] at htd
              rw [htd]
              have : ¬(d0 :: dt = []) := by simp
              rw [hd0] at hnil
              simp [hnil, h2]
    · simp only [parseExpPart, if_neg he] at h
      injection h with h
      injection h with h1 h2
      subst h1
      subst h2
      exact ⟨rfl, Or.inl rfl, Or.inl rfl, reparse_nil⟩

theorem digit_ne_dash (c : Char) (h : c.isDigit = true) : ¬(c = '-') := by
  intro e
  subst e
  exact absurd h (by decide)

theorem parseNumNoSign_spec (cs tokc r : List Char)
    (h : parseNumNoSign cs = some (tokc, r)) :
    cs = tokc ++ r ∧ tokc ≠ [] ∧
    (∃ c t, tokc = c :: t ∧ c.isDigit = true) ∧
    (∃ t b, tokc = t ++ [b] ∧ b.isDigit = true) ∧
    ∀ ext, extSafe ext = true → parseNumNoSign (tokc ++ ext) = some (tokc, ext) := by
  cases hip : parseIntPart cs with
  | none => rw [parseNumNoSign, hip] at h; exact absurd h (by simp)
  | some q1 =>
    obtain ⟨ip, r1⟩ := q1
    rw [parseNumNoSign, hip] at h
    dsimp only at h
    cases hfp : parseFracPart r1 with
    | none => rw [hfp] at h; exact absurd h (by simp)
    | some q2 =>
      obtain ⟨fp, r2⟩ := q2
      rw [hfp] at h
      dsimp only at h
      cases hep : parseExpPart r2 with
      | none => rw [hep] at h; exact absurd h (by simp)
      | some q3 =>
        obtain ⟨ep, r3⟩ := q3
        rw [hep] at h
        dsimp only at h
        injection h with h
        injection h with h1 h2
        subst h2
        obtain ⟨hipe, hipd, hipne, hipre⟩ := parseIntPart_spec _ _ _ hip
        obtain ⟨hfpe, hfps, hfpre⟩ := parseFracPart_spec _ _ _ hfp
        obtain ⟨hepe, heph, hepl, hepre⟩ := parseExpPart_spec _ _ _ hep
        obtain ⟨i0, it, hip0⟩ : ∃ i0 it, ip = i0 :: it := by
          cases hx : ip with
          | nil => exact absurd hx hipne
          | cons i0 it => exact ⟨i0, it, rfl⟩
        have hi0d : i0.isDigit = true := by
          rw [hip0] at hipd
          simp at hipd
          exact hipd.1
        refine ⟨?_, ?_, ?_, ?_, ?_⟩
        · rw [← h1, hipe, hfpe, hepe]
          simp
        · rw [← h1, hip0]
          simp
        · exact ⟨i0, it ++ fp ++ ep, by rw [← h1, hip0]; simp, hi0d⟩
        · rcases hepl with hnil | ⟨t, b, hconc, hbd⟩
          · subst hnil
            rcases hfps with hfnil | ⟨ds, hfeq, hdsne, hdsall⟩
            · subst hfnil
              obtain ⟨t, b, hconc, hbd⟩ := all_digit_concat ip hipne hipd
              exact ⟨t, b, by rw [← h1, hconc]; simp, hbd⟩
            · obtain ⟨t, b, hconc, hbd⟩ := all_digit_concat ds hdsne hdsall
              refine ⟨ip ++ '.' :: t, b, ?_, hbd⟩
              rw [← h1, hfeq, hconc]
              simp
          · refine ⟨ip ++ fp ++ t, b, ?_, hbd⟩
            rw [← h1, hconc]
            simp
        · intro ext hext
          have hndext := extSafe_noDigitHead ext hext
          have hnd : noDigitHead (fp ++ (ep ++ ext)) = true := by
            rcases hfps with hfnil | ⟨ds, hfeq, _, _⟩
            · subst hfnil
              rcases heph with henil | ⟨e, t1, heeq, hee⟩
              · subst henil
                simpa using hndext
              · rw [heeq]
                cases hee with
                | inl hx => subst hx; rfl
                | inr hx => subst hx; rfl
            · rw [hfeq]
              rfl
          have hnf : noFracHead (ep ++ ext) = true := by
            rcases heph with henil | ⟨e, t1, heeq, hee⟩
            · subst henil
              simpa using extSafe_noFracHead ext hext
            · rw [heeq]
              cases hee with
              | inl hx => subst hx; rfl
              | inr hx => subst hx; rfl
          have hne : noExpHead ext = true := extSafe_noExpHead ext hext
          have e1 : parseIntPart (ip ++ (fp ++ (ep ++ ext))) = some (ip, fp ++ (ep ++ ext)) :=
            hipre _ hnd
          have e2 : parseFracPart (fp ++ (ep ++ ext)) = some (fp, ep ++ ext) := hfpre _ hnf
          have e3 : parseExpPart (ep ++ ext) = some (ep, ext) := hepre _ hne
          rw [← h1]
          simp only [List.append_assoc]
          rw [parseNumNoSign, e1]
          dsimp only
          rw [e2]
          dsimp only
          rw [e3]
          simp [List.append_assoc]

theorem parseNumber_spec (cs : List Char) (tok : String) (rest : List Char)
    (h : parseNumber cs = some (tok, rest)) :
    cs = tok.data ++ rest ∧
    (∃ c t, tok.data = c :: t ∧ (c = '-' ∨ c.isDigit = true)) ∧
    (∃ t b, tok.data = t ++ [b] ∧ b.isDigit = true) ∧
    ∀ ext, extSafe ext = true → parseNumber (tok.data ++ ext) = some (tok, ext) := by
  cases cs with
  | nil => rw [parseNumber] at h; exact absurd h (by simp)
  | cons c cs1 =>
    by_cases hc : c = '-'
    · subst hc
      simp only [parseNumber, if_pos rfl] at h
      cases hns : parseNumNoSign cs1 with
      | none => rw [hns] at h; exact absurd h (by simp)
      | some q =>
        obtain ⟨tokc, r⟩ := q
        rw [hns] at h
        simp only [Option.map_some'] at h
        injection h with h
        injection h with h1 h2
        subst h2
        obtain ⟨hse, hne, _, hlast, hre⟩ := parseNumNoSign_spec _ _ _ hns
        have hdata : tok.data = '-' :: tokc := by rw [← h1]
        refine ⟨?_, ?_, ?_, ?_⟩
        · rw [hdata, hse]
          rfl
        · exact ⟨'-', tokc, hdata, Or.inl rfl⟩
        · obtain ⟨t, b, hconc, hbd⟩ := hlast
          exact ⟨'-' :: t, b, by rw [hdata, hconc]; rfl, hbd⟩
        · intro ext hext
          rw [hdata]
          simp only [List.cons_append, parseNumber, if_pos rfl]
          rw [hre ext hext]
          simp [← h1]
    · simp only [parseNumber, if_neg hc] at h
      cases hns : parseNumNoSign (c :: cs1) with
      | none => rw [hns] at h; exact absurd h (by simp)
      | some q =>
        obtain ⟨tokc, r⟩ := q
        rw [hns] at h
        simp only [Option.map_some'] at h
        injection h with h
        injection h with h1 h2
        subst h2
        obtain ⟨hse, hne, hhead, hlast, hre⟩ := parseNumNoSign_spec _ _ _ hns
        have hdata : tok.data = tokc := by rw [← h1]
        obtain ⟨i0, it, hi0, hi0d⟩ := hhead
        refine ⟨?_, ?_, ?_, ?_⟩
        · rw [hdata, hse]
        · exact ⟨i0, it, by rw [hdata, hi0], Or.inr hi0d⟩
        · obtain ⟨t, b, hconc, hbd⟩ := hlast
          exact ⟨t, b, by rw [hdata, hconc], hbd⟩
        · intro ext hext
          rw [hdata, hi0]
          simp only [List.cons_append, parseNumber, if_neg (digit_ne_dash i0 hi0d)]
          rw [← List.cons_append, ← hi0, hre ext hext]
          simp [← h1, hi0]

theorem parseStringRest_cons (c : Char) (cs : List Char) :
    parseStringRest (c :: cs)
      = (if c = '"' then some ([], cs)
        else if c = '\\' then
          match cs with
          | [] => none
          | e :: cs2 =>
            if e = '"' then (parseStringRest cs2).map (fun p => ('"' :: p.1, p.2))
            else if e = '\\' then (parseStringRest cs2).map (fun p => ('\\' :: p.1, p.2))
            else if e = '/' then (parseStringRest cs2).map (fun p => ('/' :: p.1, p.2))
            else if e = 'b' then (parseStringRest cs2).map (fun p => (Char.ofNat 8 :: p.1, p.2))
            else if e = 'f' then (parseStringRest cs2).map (fun p => (Char.ofNat 12 :: p.1, p.2))
            else if e = 'n' then (parseStringRest cs2).map (fun p => ('\n' :: p.1, p.2))
            else if e = 'r' then (parseStringRest cs2).map (fun p => ('\r' :: p.1, p.2))
            else if e = 't' then (parseStringRest cs2).map (fun p => ('\t' :: p.1, p.2))
            else if e = 'u' then
              match cs2 with
              | h1 :: h2 :: h3 :: h4 :: cs3 =>
                if isHexDigit h1 ∧ isHexDigit h2 ∧ isHexDigit h3 ∧ isHexDigit h4 then
                  (parseStringRest cs3).map
                    (fun p =>
                      (Char.ofNat (((hexVal h1 * 16 + hexVal h2) * 16 + hexVal h3) * 16 + hexVal h4)
                        :: p.1, p.2))
                else none
              | _ => none
            else none
        else if c.toNat < 32 then none
        else (parseStringRest cs).map (fun p => (c :: p.1, p.2))) := by
  rw [parseStringRest.eq_def]

theorem psr_escape_step (e ec : Char) (cs2 content rest : List Char)
    (hstep : ∀ l, parseStringRest ('\\' :: e :: l)
      = (parseStringRest l).map (fun p => (ec :: p.1, p.2)))
    (h : parseStringRest ('\\' :: e :: cs2) = some (content, rest))
    (ih : ∀ content' rest', parseStringRest cs2 = some (content', rest') →
      ∃ p, cs2 = p ++ '"' :: rest' ∧
        ∀ ext, parseStringRest (p ++ '"' :: ext) = some (content', ext)) :
    ∃ p, '\\' :: e :: cs2 = p ++ '"' :: rest ∧
      ∀ ext, parseStringRest (p ++ '"' :: ext) = some (content, ext) := by
  rw [hstep] at h
  cases hx : parseStringRest cs2 with
  | none => rw [hx] at h; exact absurd h (by simp)
  | some q =>
    obtain ⟨c2, r2⟩ := q
    rw [hx] at h
    simp only [Option.map_some'] at h
    injection h with h
    injection h with h1 h2
    subst h2
    obtain ⟨p, hp, hre⟩ := ih _ _ hx
    refine ⟨'\\' :: e :: p, by rw [hp]; rfl, ?_⟩
    intro ext
    rw [List.cons_append, List.cons_append, hstep, hre ext]
    simp [← h1]

theorem parseStringRest_spec (cs : List Char) :
    ∀ content rest, parseStringRest cs = some (content, rest) →
    ∃ p, cs = p ++ '"' :: rest ∧
      ∀ ext, parseStringRest (p ++ '"' :: ext) = some (content, ext) := by
  induction cs using parseStringRest.induct with
  | case1 =>
    intro content rest h
    exact Option.noConfusion h
  | case2 cs =>
    intro content rest h
    rw [parseStringRest_cons, if_pos rfl] at h
    injection h with h
    injection h with h1 h2
    subst h1
    subst h2
    refine ⟨[], rfl, ?_⟩
    intro ext
    rw [List.nil_append, parseStringRest_cons, if_pos rfl]
  | case3 =>
    intro content rest h
    exact Option.noConfusion h
  | case4 cs _ ih =>
    intro content rest h
    exact psr_escape_step '"' '"' cs content rest
      (fun l => by rw [parseStringRest_cons]; simp) h ih
  | case5 cs _ _ ih =>
    intro content rest h
    exact psr_escape_step '\\' '\\' cs content rest
      (fun l => by rw [parseStringRest_cons]; simp) h ih
  | case6 cs _ _ _ ih =>
    intro content rest h
    exact psr_escape_step '/' '/' cs content rest
      (fun l => by rw [parseStringRest_cons]; simp) h ih
  | case7 cs _ _ _ _ ih =>
    intro content rest h
    exact psr_escape_step 'b' (Char.ofNat 8) cs content rest
      (fun l => by rw [parseStringRest_cons]; simp) h ih
  | case8 cs _ _ _ _ _ ih =>
    intro content rest h
    exact psr_escape_step 'f' (Char.ofNat 12) cs content rest
      (fun l => by rw [parseStringRest_cons]; simp) h ih
  | case9 cs _ _ _ _ _ _ ih =>
    intro content rest h
    exact psr_escape_step 'n' '\n' cs content rest
      (fun l => by rw [parseStringRest_cons]; simp) h ih
  | case10 cs _ _ _ _ _ _ _ ih =>
    intro content rest h
    exact psr_escape_step 'r' '\r' cs content rest
      (fun l => by rw [parseStringRest_cons]; simp) h ih
  | case11 cs _ _ _ _ _ _ _ _ ih =>
    intro content rest h
    exact psr_escape_step 't' '\t' cs content rest
      (fun l => by rw [parseStringRest_cons]; simp) h ih
  | case12 h1 h2 h3 h4 cs3 hhex _ _ _ _ _ _ _ _ _ ih =>
    intro content rest h
    have hstep : ∀ l, parseStringRest ('\\' :: 'u' :: h1 :: h2 :: h3 :: h4 :: l)
        = (parseStringRest l).map
          (fun p => (Char.ofNat (((hexVal h1 * 16 + hexVal h2) * 16 + hexVal h3) * 16 + hexVal h4)
            :: p.1, p.2)) := by
      intro l
      rw [parseStringRest_cons]
      rw [if_neg (show ¬('\\' = '"') by decide), if_pos (show ('\\' : Char) = '\\' from rfl)]
      dsimp only
      rw [if_neg (show ¬('u' = '"') by decide), if_neg (show ¬('u' = '\\') by decide),
        if_neg (show ¬('u' = '/') by decide), if_neg (show ¬('u' = 'b') by decide),
        if_neg (show ¬('u' = 'f') by decide), if_neg (show ¬('u' = 'n') by decide),
        if_neg (show ¬('u' = 'r') by decide), if_neg (show ¬('u' = 't') by decide),
        if_pos (show 'u' = 'u' from rfl)]
      rw [if_pos hhex]
    rw [hstep] at h
    cases hx : parseStringRest cs3 with
    | none => rw [hx] at h; exact absurd h (by simp)
    | some q =>
      obtain ⟨c2, r2⟩ := q
      rw [hx] at h
      simp only [Option.map_some'] at h
      injection h with h
      injection h with hc1 hc2
      subst hc2
      obtain ⟨p, hp, hre⟩ := ih _ _ hx
      refine ⟨'\\' :: 'u' :: h1 :: h2 :: h3 :: h4 :: p, by rw [hp]; rfl, ?_⟩
      intro ext
      have hsplit : '\\' :: 'u' :: h1 :: h2 :: h3 :: h4 :: p ++ '"' :: ext
          = '\\' :: 'u' :: h1 :: h2 :: h3 :: h4 :: (p ++ '"' :: ext) := by simp
      rw [hsplit, hstep, hre ext]
      simp [← hc1]
  | case13 h1 h2 h3 h4 cs3 hhex =>
    intro content rest h
    rw [parseStringRest_cons] at h
    rw [if_neg (show ¬('\\' = '"') by decide), if_pos (show ('\\' : Char) = '\\' from rfl)] at h
    dsimp only at h
    rw [if_neg (show ¬('u' = '"') by decide), if_neg (show ¬('u' = '\\') by decide),
        if_neg (show ¬('u' = '/') by decide), if_neg (show ¬('u' = 'b') by decide),
        if_neg (show ¬('u' = 'f') by decide), if_neg (show ¬('u' = 'n') by decide),
        if_neg (show ¬('u' = 'r') by decide), if_neg (show ¬('u' = 't') by decide),
        if_pos (show 'u' = 'u' from rfl)] at h
    rw [if_neg hhex] at h
    exact Option.noConfusion h
  | case14 cs hshape =>
    intro content rest h
    rw [parseStringRest_cons] at h
    rw [if_neg (show ¬('\\' = '"') by decide), if_pos (show ('\\' : Char) = '\\' from rfl)] at h
    dsimp only at h
    rw [if_neg (show ¬('u' = '"') by decide), if_neg (show ¬('u' = '\\') by decide),
        if_neg (show ¬('u' = '/') by decide), if_neg (show ¬('u' = 'b') by decide),
        if_neg (show ¬('u' = 'f') by decide), if_neg (show ¬('u' = 'n') by decide),
        if_neg (show ¬('u' = 'r') by decide), if_neg (show ¬('u' = 't') by decide),
        if_pos (show 'u' = 'u' from rfl)] at h
    rcases cs with _ | ⟨a, _ | ⟨b, _ | ⟨c2, _ | ⟨d, t⟩⟩⟩⟩
    · exact Option.noConfusion h
    · exact Option.noConfusion h
    · exact Option.noConfusion h
    · exact Option.noConfusion h
    · exact (hshape a b c2 d t rfl).elim
  | case15 c cs hc1 hc2 hc3 hc4 hc5 hc6 hc7 hc8 hc9 _ =>
    intro content rest h
    rw [parseStringRest_cons] at h
    rw [if_neg (show ¬('\\' = '"') by decide), if_pos (show ('\\' : Char) = '\\' from rfl)] at h
    dsimp only at h
    rw [if_neg hc1, if_neg hc2, if_neg hc3, if_neg hc4, if_neg hc5, if_neg hc6,
      if_neg hc7, if_neg hc8, if_neg hc9] at h
    exact Option.noConfusion h
  | case16 c cs hc1 hc2 hlt =>
    intro content rest h
    rw [parseStringRest_cons, if_neg hc1, if_neg hc2, if_pos hlt] at h
    exact Option.noConfusion h
  | case17 c cs hc1 hc2 hge ih =>
    intro content rest h
    have hstep : ∀ l, parseStringRest (c :: l)
        = (parseStringRest l).map (fun p => (c :: p.1, p.2)) := by
      intro l
      rw [parseStringRest_cons, if_neg hc1, if_neg hc2, if_neg hge]
    rw [hstep] at h
    cases hx : parseStringRest cs with
    | none => rw [hx] at h; exact absurd h (by simp)
    | some q =>
      obtain ⟨c2, r2⟩ := q
      rw [hx] at h
      simp only [Option.map_some'] at h
      injection h with h
      injection h with hh1 hh2
      subst hh2
      obtain ⟨p, hp, hre⟩ := ih _ _ hx
      refine ⟨c :: p, by rw [hp]; rfl, ?_⟩
      intro ext
      rw [List.cons_append, hstep, hre ext]
      simp [← hh1]

theorem parseValue_succ (fuel : Nat) (c : Char) (rest : List Char) :
    parseValue (fuel + 1) (c :: rest)
      = (if c = '{' then
          match skipWs rest with
          | [] => none
          | d :: r2 =>
            if d = '}' then some (Json.obj [], r2)
            else
              (parseMembersW (fun x => parseValue fuel x) fuel (d :: r2)).map
                (fun p => (Json.obj p.1, p.2))
        else if c = '[' then
          match skipWs rest with
          | [] => none
          | d :: r2 =>
            if d = ']' then some (Json.arr [], r2)
            else
              (parseElemsW (fun x => parseValue fuel x) fuel (d :: r2)).map
                (fun p => (Json.arr p.1, p.2))
        else if c = '"' then
          (parseStringRest rest).map (fun p => (Json.str (String.mk p.1), p.2))
        else if c = 't' then
          (expectChars ['r', 'u', 'e'] rest).map (fun r => (Json.bool true, r))
        else if c = 'f' then
          (expectChars ['a', 'l', 's', 'e'] rest).map (fun r => (Json.bool false, r))
        else if c = 'n' then
          (expectChars ['u', 'l', 'l'] rest).map (fun r => (Json.null, r))
        else if c = '-' ∨ c.isDigit then
          (parseNumber (c :: rest)).map (fun p => (Json.num p.1, p.2))
        else none) := rfl

theorem parseElemsW_succ (pv : List Char → Option (Json × List Char)) (n : Nat)
    (cs : List Char) :
    parseElemsW pv (n + 1) cs
      = (match pv cs with
        | none => none
        | some (v, r) =>
          match skipWs r with
          | [] => none
          | d :: r2 =>
            if d = ',' then (parseElemsW pv n (skipWs r2)).map (fun p => (v :: p.1, p.2))
            else if d = ']' then some ([v], r2)
            else none) := rfl

theorem parseMembersW_succ (pv : List Char → Option (Json × List Char)) (n : Nat)
    (cs : List Char) :
    parseMembersW pv (n + 1) cs
      = (match cs with
        | [] => none
        | c :: r0 =>
          if c = '"' then
            match parseStringRest r0 with
            | none => none
            | some (key, r1) =>
              match skipWs r1 with
              | [] => none
              | d :: r2 =>
                if d = ':' then
                  match pv (skipWs r2) with
                  | none => none
                  | some (v, r3) =>
                    match skipWs r3 with
                    | [] => none
                    | e :: r4 =>
                      if e = ',' then
                        (parseMembersW pv n (skipWs r4)).map
                          (fun p => ((String.mk key, v) :: p.1, p.2))
                      else if e = '}' then some ([(String.mk key, v)], r4)
                      else none
                else none
          else none) := rfl

theorem valueStart_not_ws (c : Char) (h : valueStart c = true) : isWs c = false := by
  simp [valueStart] at h
  tauto

theorem valueStart_ne_rbracket (c : Char) (h : valueStart c = true) : ¬(c = ']') := by
  simp [valueStart] at h
  tauto

theorem valueStart_endOk (c : Char) (h : valueStart c = true) : endOk c = true := by
  simp [valueStart] at h
  simp [endOk]
  tauto

theorem digit_valueStart (c : Char) (h : c.isDigit = true) : valueStart c = true := by
  have h1 : c ≠ ' ' := fun e => by subst e; exact absurd h (by decide)
  have h2 : c ≠ '\t' := fun e => by subst e; exact absurd h (by decide)
  have h3 : c ≠ '\n' := fun e => by subst e; exact absurd h (by decide)
  have h4 : c ≠ '\r' := fun e => by subst e; exact absurd h (by decide)
  have h5 : c ≠ ']' := fun e => by subst e; exact absurd h (by decide)
  have h6 : c ≠ '`' := fun e => by subst e; exact absurd h (by decide)
  simp [valueStart, isWs, h1, h2, h3, h4, h5, h6]

theorem ws_extSafe (c : Char) (t : List Char) (h : isWs c = true) :
    extSafe (c :: t) = true := by
  have h' : c = ' ' ∨ c = '\t' ∨ c = '\n' ∨ c = '\r' := by
    simp [isWs] at h
    tauto
  rcases h' with h' | h' | h' | h' <;> (rw [h']; rfl)

theorem extSafe_allWs_append (a tail : List Char) (ha : a.all isWs = true)
    (htail : extSafe tail = true) : extSafe (a ++ tail) = true := by
  cases a with
  | nil => exact htail
  | cons w t =>
    simp only [List.all_cons, Bool.and_eq_true] at ha
    exact ws_extSafe _ _ ha.1

theorem extSafe_comma (t : List Char) : extSafe (',' :: t) = true := rfl

theorem extSafe_rbracket (t : List Char) : extSafe (']' :: t) = true := rfl

theorem extSafe_rbrace (t : List Char) : extSafe ('}' :: t) = true := rfl

theorem parseElemsW_spec (f : Nat) (hv : ValueSpec f) :
    ∀ n cs items rest, parseElemsW (fun x => parseValue f x) n cs = some (items, rest) →
    ∃ pe, cs = pe ++ ']' :: rest ∧
      (∃ c t, pe = c :: t ∧ valueStart c = true) ∧
      ∀ f' n' ext, 2 * (pe.length + 1 + ext.length) + 2 ≤ f' → pe.length ≤ n' →
        parseElemsW (fun x => parseValue f' x) n' (pe ++ ']' :: ext) = some (items, ext) := by
  intro n
  induction n with
  | zero =>
    intro cs items rest h
    exact Option.noConfusion h
  | succ n ih =>
    intro cs items rest h
    rw [parseElemsW_succ] at h
    cases hpv : parseValue f cs with
    | none => rw [hpv] at h; exact Option.noConfusion h
    | some q =>
      obtain ⟨v, r⟩ := q
      rw [hpv] at h
      dsimp only at h
      obtain ⟨pre, hpre, ⟨c0, t0, hh, hvs⟩, _, hrep⟩ := hv _ _ _ hpv
      have hprelen : pre.length = t0.length + 1 := by rw [hh]; rfl
      cases hsw : skipWs r with
      | nil => rw [hsw] at h; exact Option.noConfusion h
      | cons d r2 =>
        rw [hsw] at h
        dsimp only at h
        obtain ⟨a1, ha1, ha1w⟩ := skipWs_decomp r
        rw [hsw] at ha1
        by_cases hd : d = ','
        · subst hd
          rw [if_pos rfl] at h
          cases hrec : parseElemsW (fun x => parseValue f x) n (skipWs r2) with
          | none => rw [hrec] at h; exact Option.noConfusion h
          | some q2 =>
            obtain ⟨items2, rest2⟩ := q2
            rw [hrec] at h
            simp only [Option.map_some'] at h
            injection h with h
            injection h with h1 h2
            obtain ⟨a2, ha2, ha2w⟩ := skipWs_decomp r2
            obtain ⟨pe2, hpe2, ⟨c2, t2, hh2, hvs2⟩, hrep2⟩ := ih _ _ _ hrec
            have hpe2len : pe2.length = t2.length + 1 := by rw [hh2]; rfl
            refine ⟨pre ++ a1 ++ ',' :: (a2 ++ pe2), ?_, ?_, ?_⟩
            · rw [hpre, ha1, ha2, hpe2, ← h2]
              simp
            · exact ⟨c0, t0 ++ a1 ++ ',' :: (a2 ++ pe2), by rw [hh]; simp, hvs⟩
            · intro f' n' ext hf' hn'
              simp only [List.length_append, List.length_cons] at hf' hn'
              obtain ⟨n'', rfl⟩ : ∃ n'', n' = n'' + 1 := ⟨n' - 1, by omega⟩
              rw [parseElemsW_succ]
              have hass : (pre ++ a1 ++ ',' :: (a2 ++ pe2)) ++ ']' :: ext
                  = pre ++ (a1 ++ ',' :: (a2 ++ pe2 ++ ']' :: ext)) := by simp
              rw [hass]
              have hext1 : extSafe (a1 ++ ',' :: (a2 ++ pe2 ++ ']' :: ext)) = true :=
                extSafe_allWs_append _ _ ha1w (extSafe_comma _)
              have hval : parseValue f' (pre ++ (a1 ++ ',' :: (a2 ++ pe2 ++ ']' :: ext)))
                  = some (v, a1 ++ ',' :: (a2 ++ pe2 ++ ']' :: ext)) := by
                apply hrep
                · simp only [List.length_append, List.length_cons]
                  omega
                · exact hext1
              rw [hval]
              dsimp only
              have hsw2 : skipWs (a1 ++ ',' :: (a2 ++ pe2 ++ ']' :: ext))
                  = ',' :: (a2 ++ pe2 ++ ']' :: ext) := by
                rw [skipWs_append_allWs _ _ ha1w]
                exact skipWs_cons_not _ _ (by decide)
              rw [hsw2]
              dsimp only
              rw [if_pos rfl]
              have hsw3 : skipWs (a2 ++ pe2 ++ ']' :: ext) = pe2 ++ ']' :: ext := by
                rw [List.append_assoc, skipWs_append_allWs _ _ ha2w, hh2]
                rw [List.cons_append]
                exact skipWs_cons_not _ _ (valueStart_not_ws _ hvs2)
              rw [hsw3]
              have hrec2 : parseElemsW (fun x => parseValue f' x) n'' (pe2 ++ ']' :: ext)
                  = some (items2, ext) := by
                apply hrep2
                · omega
                · omega
              rw [hrec2]
              simp [← h1]
        · by_cases hd2 : d = ']'
          · subst hd2
            rw [if_neg hd, if_pos rfl] at h
            injection h with h
            injection h with h1 h2
            refine ⟨pre ++ a1, ?_, ?_, ?_⟩
            · rw [hpre, ha1, ← h2]
              simp
            · exact ⟨c0, t0 ++ a1, by rw [hh]; simp, hvs⟩
            · intro f' n' ext hf' hn'
              simp only [List.length_append, List.length_cons] at hf' hn'
              obtain ⟨n'', rfl⟩ : ∃ n'', n' = n'' + 1 := ⟨n' - 1, by omega⟩
              rw [parseElemsW_succ]
              have hass : (pre ++ a1) ++ ']' :: ext = pre ++ (a1 ++ ']' :: ext) := by simp
              rw [hass]
              have hval : parseValue f' (pre ++ (a1 ++ ']' :: ext))
                  = some (v, a1 ++ ']' :: ext) := by
                apply hrep
                · simp only [List.length_append, List.length_cons]
                  omega
                · exact extSafe_allWs_append _ _ ha1w (extSafe_rbracket _)
              rw [hval]
              dsimp only
              have hsw2 : skipWs (a1 ++ ']' :: ext) = ']' :: ext := by
                rw [skipWs_append_allWs _ _ ha1w]
                exact skipWs_cons_not _ _ (by decide)
              rw [hsw2]
              dsimp only
              rw [if_neg (show ¬(']' = ',') by decide), if_pos rfl]
              rw [← h1]
          · rw [if_neg hd, if_neg hd2] at h
            exact Option.noConfusion h

theorem parseMembersW_spec (f : Nat) (hv : ValueSpec f) :
    ∀ n cs fields rest, parseMembersW (fun x => parseValue f x) n cs = some (fields, rest) →
    ∃ pm, cs = pm ++ '}' :: rest ∧ (∃ t, pm = '"' :: t) ∧
      ∀ f' n' ext, 2 * (pm.length + 1 + ext.length) + 2 ≤ f' → pm.length ≤ n' →
        parseMembersW (fun x => parseValue f' x) n' (pm ++ '}' :: ext) = some (fields, ext) := by
  intro n
  induction n with
  | zero =>
    intro cs fields rest h
    exact Option.noConfusion h
  | succ n ih =>
    intro cs fields rest h
    rw [parseMembersW_succ] at h
    cases cs with
    | nil => exact Option.noConfusion h
    | cons c r0 =>
      dsimp only at h
      by_cases hc : c = '"'
      · subst hc
        rw [if_pos rfl] at h
        cases hps : parseStringRest r0 with
        | none => rw [hps] at h; exact Option.noConfusion h
        | some qk =>
          obtain ⟨key, r1⟩ := qk
          rw [hps] at h
          dsimp only at h
          obtain ⟨ps, hps1, hpsre⟩ := parseStringRest_spec _ _ _ hps
          cases hsw1 : skipWs r1 with
          | nil => rw [hsw1] at h; exact Option.noConfusion h
          | cons d r2 =>
            rw [hsw1] at h
            dsimp only at h
            obtain ⟨b1, hb1, hb1w⟩ := skipWs_decomp r1
            rw [hsw1] at hb1
            by_cases hd : d = ':'
            · subst hd
              rw [if_pos rfl] at h
              cases hpv : parseValue f (skipWs r2) with
              | none => rw [hpv] at h; exact Option.noConfusion h
              | some qv =>
                obtain ⟨v, r3⟩ := qv
                rw [hpv] at h
                dsimp only at h
                obtain ⟨b2, hb2, hb2w⟩ := skipWs_decomp r2
                obtain ⟨pre, hpre, ⟨c0, t0, hh, hvs⟩, _, hrep⟩ := hv _ _ _ hpv
                have hprelen : pre.length = t0.length + 1 := by rw [hh]; rfl
                cases hsw3 : skipWs r3 with
                | nil => rw [hsw3] at h; exact Option.noConfusion h
                | cons e r4 =>
                  rw [hsw3] at h
                  dsimp only at h
                  obtain ⟨b3, hb3, hb3w⟩ := skipWs_decomp r3
                  rw [hsw3] at hb3
                  by_cases he : e = ','
                  · subst he
                    rw [if_pos rfl] at h
                    cases hrec : parseMembersW (fun x => parseValue f x) n (skipWs r4) with
                    | none => rw [hrec] at h; exact Option.noConfusion h
                    | some q2 =>
                      obtain ⟨fields2, rest2⟩ := q2
                      rw [hrec] at h
                      simp only [Option.map_some'] at h
                      injection h with h
                      injection h with h1 h2
                      obtain ⟨b4, hb4, hb4w⟩ := skipWs_decomp r4
                      obtain ⟨pm2, hpm2, ⟨t2, hh2⟩, hrep2⟩ := ih _ _ _ hrec
                      have hpm2len : pm2.length = t2.length + 1 := by rw [hh2]; rfl
                      refine ⟨'"' :: (ps ++ '"' :: (b1 ++ ':' :: (b2 ++ pre ++ b3
                        ++ ',' :: (b4 ++ pm2)))), ?_, ⟨_, rfl⟩, ?_⟩
                      · rw [hps1, hb1, hb2, hpre, hb3, hb4, hpm2, ← h2]
                        simp
                      · intro f' n' ext hf' hn'
                        simp only [List.length_append, List.length_cons] at hf' hn'
                        obtain ⟨n'', rfl⟩ : ∃ n'', n' = n'' + 1 := ⟨n' - 1, by omega⟩
                        rw [List.cons_append, parseMembersW_succ]
                        dsimp only
                        rw [if_pos rfl]
                        have hkass : (ps ++ '"' :: (b1 ++ ':' :: (b2 ++ pre ++ b3
                            ++ ',' :: (b4 ++ pm2)))) ++ '}' :: ext
                            = ps ++ '"' :: (b1 ++ ':' :: (b2 ++ pre ++ b3
                              ++ ',' :: (b4 ++ pm2 ++ '}' :: ext))) := by simp
                        rw [hkass, hpsre]
                        dsimp only
                        have hsw1' : skipWs (b1 ++ ':' :: (b2 ++ pre ++ b3
                            ++ ',' :: (b4 ++ pm2 ++ '}' :: ext)))
                            = ':' :: (b2 ++ pre ++ b3 ++ ',' :: (b4 ++ pm2 ++ '}' :: ext)) := by
                          rw [skipWs_append_allWs _ _ hb1w]
                          exact skipWs_cons_not _ _ (by decide)
                        rw [hsw1']
                        dsimp only
                        rw [if_pos rfl]
                        have hswv : skipWs (b2 ++ pre ++ b3 ++ ',' :: (b4 ++ pm2 ++ '}' :: ext))
                            = pre ++ (b3 ++ ',' :: (b4 ++ pm2 ++ '}' :: ext)) := by
                          rw [List.append_assoc, List.append_assoc,
                            skipWs_append_allWs _ _ hb2w, hh]
                          rw [List.cons_append]
                          rw [skipWs_cons_not _ _ (valueStart_not_ws _ hvs)]
                        rw [hswv]
                        have hval : parseValue f' (pre ++ (b3 ++ ',' :: (b4 ++ pm2 ++ '}' :: ext)))
                            = some (v, b3 ++ ',' :: (b4 ++ pm2 ++ '}' :: ext)) := by
                          apply hrep
                          · simp only [List.length_append, List.length_cons]
                            omega
                          · exact extSafe_allWs_append _ _ hb3w (extSafe_comma _)
                        rw [hval]
                        dsimp only
                        have hsw3' : skipWs (b3 ++ ',' :: (b4 ++ pm2 ++ '}' :: ext))
                            = ',' :: (b4 ++ pm2 ++ '}' :: ext) := by
                          rw [skipWs_append_allWs _ _ hb3w]
                          exact skipWs_cons_not _ _ (by decide)
                        rw [hsw3']
                        dsimp only
                        rw [if_pos rfl]
                        have hsw4' : skipWs (b4 ++ pm2 ++ '}' :: ext) = pm2 ++ '}' :: ext := by
                          rw [List.append_assoc, skipWs_append_allWs _ _ hb4w, hh2]
                          rw [List.cons_append]
                          exact skipWs_cons_not _ _ (by decide)
                        rw [hsw4']
                        have hrec2 : parseMembersW (fun x => parseValue f' x) n''
                            (pm2 ++ '}' :: ext) = some (fields2, ext) := by
                          apply hrep2
                          · omega
                          · omega
                        rw [hrec2]
                        simp [← h1]
                  · by_cases he2 : e = '}'
                    · subst he2
                      rw [if_neg he, if_pos rfl] at h
                      injection h with h
                      injection h with h1 h2
                      refine ⟨'"' :: (ps ++ '"' :: (b1 ++ ':' :: (b2 ++ pre ++ b3))), ?_,
                        ⟨_, rfl⟩, ?_⟩
                      · rw [hps1, hb1, hb2, hpre, hb3, ← h2]
                        simp
                      · intro f' n' ext hf' hn'
                        simp only [List.length_append, List.length_cons] at hf' hn'
                        obtain ⟨n'', rfl⟩ : ∃ n'', n' = n'' + 1 := ⟨n' - 1, by omega⟩
                        rw [List.cons_append, parseMembersW_succ]
                        dsimp only
                        rw [if_pos rfl]
                        have hkass : (ps ++ '"' :: (b1 ++ ':' :: (b2 ++ pre ++ b3))) ++ '}' :: ext
                            = ps ++ '"' :: (b1 ++ ':' :: (b2 ++ pre ++ b3 ++ '}' :: ext)) := by
                          simp
                        rw [hkass, hpsre]
                        dsimp only
                        have hsw1' : skipWs (b1 ++ ':' :: (b2 ++ pre ++ b3 ++ '}' :: ext))
                            = ':' :: (b2 ++ pre ++ b3 ++ '}' :: ext) := by
                          rw [skipWs_append_allWs _ _ hb1w]
                          exact skipWs_cons_not _ _ (by decide)
                        rw [hsw1']
                        dsimp only
                        rw [if_pos rfl]
                        have hswv : skipWs (b2 ++ pre ++ b3 ++ '}' :: ext)
                            = pre ++ (b3 ++ '}' :: ext) := by
                          rw [List.append_assoc, List.append_assoc,
                            skipWs_append_allWs _ _ hb2w, hh]
                          rw [List.cons_append]
                          rw [skipWs_cons_not _ _ (valueStart_not_ws _ hvs)]
                        rw [hswv]
                        have hval : parseValue f' (pre ++ (b3 ++ '}' :: ext))
                            = some (v, b3 ++ '}' :: ext) := by
                          apply hrep
                          · simp only [List.length_append, List.length_cons]
                            omega
                          · exact extSafe_allWs_append _ _ hb3w (extSafe_rbrace _)
                        rw [hval]
                        dsimp only
                        have hsw3' : skipWs (b3 ++ '}' :: ext) = '}' :: ext := by
                          rw [skipWs_append_allWs _ _ hb3w]
                          exact skipWs_cons_not _ _ (by decide)
                        rw [hsw3']
                        dsimp only
                        rw [if_neg (show ¬('}' = ',') by decide), if_pos rfl]
                        rw [← h1]
                    · rw [if_neg he, if_neg he2] at h
                      exact Option.noConfusion h
            · rw [if_neg hd] at h
              exact Option.noConfusion h
      · rw [if_neg hc] at h
        exact Option.noConfusion h

theorem numStart_ne (c0 : Char) (h : c0 = '-' ∨ c0.isDigit = true) :
    ¬(c0 = '{') ∧ ¬(c0 = '[') ∧ ¬(c0 = '"') ∧ ¬(c0 = 't') ∧ ¬(c0 = 'f') ∧ ¬(c0 = 'n') := by
  rcases h with h | h
  · subst h
    exact ⟨by decide, by decide, by decide, by decide, by decide, by decide⟩
  · refine ⟨?_, ?_, ?_, ?_, ?_, ?_⟩ <;>
      exact fun e => absurd (e ▸ h) (by decide)

theorem parseValue_spec : ∀ fuel, ValueSpec fuel := by
  intro fuel
  induction fuel with
  | zero =>
    intro cs v rest h
    exact Option.noConfusion h
  | succ f ih =>
    intro cs v rest h
    cases cs with
    | nil => exact Option.noConfusion h
    | cons c rest0 =>
      rw [parseValue_succ] at h
      by_cases hc1 : c = '{'
      · subst hc1
        rw [if_pos rfl] at h
        cases hsw : skipWs rest0 with
        | nil => rw [hsw] at h; exact Option.noConfusion h
        | cons d r2 =>
          rw [hsw] at h
          dsimp only at h
          obtain ⟨a, ha, haw⟩ := skipWs_decomp rest0
          rw [hsw] at ha
          by_cases hd : d = '}'
          · subst hd
            rw [if_pos rfl] at h
            injection h with h
            injection h with h1 h2
            refine ⟨'{' :: (a ++ ['}']), ?_, ⟨'{', a ++ ['}'], rfl, by decide⟩,
              ⟨'{' :: a, '}', by simp, by decide⟩, ?_⟩
            · rw [ha, ← h2]
              simp
            · intro f' ext hf' hsafe
              obtain ⟨f'', rfl⟩ : ∃ f'', f' = f'' + 1 := ⟨f' - 1, by omega⟩
              have hass : ('{' :: (a ++ ['}'])) ++ ext = '{' :: (a ++ '}' :: ext) := by simp
              rw [hass, parseValue_succ, if_pos rfl]
              have hsw' : skipWs (a ++ '}' :: ext) = '}' :: ext := by
                rw [skipWs_append_allWs _ _ haw]
                exact skipWs_cons_not _ _ (by decide)
              rw [hsw']
              dsimp only
              rw [if_pos rfl, ← h1]
          · rw [if_neg hd] at h
            cases hm : parseMembersW (fun x => parseValue f x) f (d :: r2) with
            | none => rw [hm] at h; exact Option.noConfusion h
            | some qm =>
              obtain ⟨fields, restm⟩ := qm
              rw [hm] at h
              simp only [Option.map_some'] at h
              injection h with h
              injection h with h1 h2
              obtain ⟨pm, hpm, ⟨tm, hhm⟩, hrepm⟩ := parseMembersW_spec f ih _ _ _ _ hm
              have hpmlen : pm.length = tm.length + 1 := by rw [hhm]; rfl
              refine ⟨'{' :: (a ++ pm ++ ['}']), ?_, ⟨'{', a ++ pm ++ ['}'], rfl, by decide⟩,
                ⟨'{' :: (a ++ pm), '}', by simp, by decide⟩, ?_⟩
              · rw [ha, hpm, ← h2]
                simp
              · intro f' ext hf' hsafe
                simp only [List.length_cons, List.length_append] at hf'
                obtain ⟨f'', rfl⟩ : ∃ f'', f' = f'' + 1 := ⟨f' - 1, by omega⟩
                have hass : ('{' :: (a ++ pm ++ ['}'])) ++ ext
                    = '{' :: (a ++ (pm ++ '}' :: ext)) := by simp
                rw [hass, parseValue_succ, if_pos rfl]
                have hsw' : skipWs (a ++ (pm ++ '}' :: ext)) = pm ++ '}' :: ext := by
                  rw [skipWs_append_allWs _ _ haw, hhm, List.cons_append]
                  exact skipWs_cons_not _ _ (by decide)
                rw [hsw', hhm, List.cons_append]
                dsimp only
                rw [if_neg (show ¬('"' = '}') by decide)]
                rw [← List.cons_append, ← hhm]
                have hm2 : parseMembersW (fun x => parseValue f'' x) f'' (pm ++ '}' :: ext)
                    = some (fields, ext) := by
                  apply hrepm
                  · omega
                  · omega
                rw [hm2]
                simp [← h1]
      · by_cases hc2 : c = '['
        · subst hc2
          rw [if_neg hc1, if_pos rfl] at h
          cases hsw : skipWs rest0 with
          | nil => rw [hsw] at h; exact Option.noConfusion h
          | cons d r2 =>
            rw [hsw] at h
            dsimp only at h
            obtain ⟨a, ha, haw⟩ := skipWs_decomp rest0
            rw [hsw] at ha
            by_cases hd : d = ']'
            · subst hd
              rw [if_pos rfl] at h
              injection h with h
              injection h with h1 h2
              refine ⟨'[' :: (a ++ [']']), ?_, ⟨'[', a ++ [']'], rfl, by decide⟩,
                ⟨'[' :: a, ']', by simp, by decide⟩, ?_⟩
              · rw [ha, ← h2]
                simp
              · intro f' ext hf' hsafe
                obtain ⟨f'', rfl⟩ : ∃ f'', f' = f'' + 1 := ⟨f' - 1, by omega⟩
                have hass : ('[' :: (a ++ [']'])) ++ ext = '[' :: (a ++ ']' :: ext) := by simp
                rw [hass, parseValue_succ, if_neg (show ¬('[' = '{') by decide), if_pos rfl]
                have hsw' : skipWs (a ++ ']' :: ext) = ']' :: ext := by
                  rw [skipWs_append_allWs _ _ haw]
                  exact skipWs_cons_not _ _ (by decide)
                rw [hsw']
                dsimp only
                rw [if_pos rfl, ← h1]
            · rw [if_neg hd] at h
              cases hm : parseElemsW (fun x => parseValue f x) f (d :: r2) with
              | none => rw [hm] at h; exact Option.noConfusion h
              | some qm =>
                obtain ⟨items, restm⟩ := qm
                rw [hm] at h
                simp only [Option.map_some'] at h
                injection h with h
                injection h with h1 h2
                obtain ⟨pe, hpe, ⟨c2, t2, hh2, hvs2⟩, hrepe⟩ := parseElemsW_spec f ih _ _ _ _ hm
                have hpelen : pe.length = t2.length + 1 := by rw [hh2]; rfl
                refine ⟨'[' :: (a ++ pe ++ [']']), ?_, ⟨'[', a ++ pe ++ [']'], rfl, by decide⟩,
                  ⟨'[' :: (a ++ pe), ']', by simp, by decide⟩, ?_⟩
                · rw [ha, hpe, ← h2]
                  simp
                · intro f' ext hf' hsafe
                  simp only [List.length_cons, List.length_append] at hf'
                  obtain ⟨f'', rfl⟩ : ∃ f'', f' = f'' + 1 := ⟨f' - 1, by omega⟩
                  have hass : ('[' :: (a ++ pe ++ [']'])) ++ ext
                      = '[' :: (a ++ (pe ++ ']' :: ext)) := by simp
                  rw [hass, parseValue_succ, if_neg (show ¬('[' = '{') by decide), if_pos rfl]
                  have hsw' : skipWs (a ++ (pe ++ ']' :: ext)) = pe ++ ']' :: ext := by
                    rw [skipWs_append_allWs _ _ haw, hh2, List.cons_append]
                    exact skipWs_cons_not _ _ (valueStart_not_ws _ hvs2)
                  rw [hsw', hh2, List.cons_append]
                  dsimp only
                  rw [if_neg (valueStart_ne_rbracket _ hvs2)]
                  rw [← List.cons_append, ← hh2]
                  have hm2 : parseElemsW (fun x => parseValue f'' x) f'' (pe ++ ']' :: ext)
                      = some (items, ext) := by
                    apply hrepe
                    · omega
                    · omega
                  rw [hm2]
                  simp [← h1]
        · by_cases hc3 : c = '"'
          · subst hc3
            rw [if_neg hc1, if_neg hc2, if_pos rfl] at h
            cases hps : parseStringRest rest0 with
            | none => rw [hps] at h; exact Option.noConfusion h
            | some qs =>
              obtain ⟨content, r⟩ := qs
              rw [hps] at h
              simp only [Option.map_some'] at h
              injection h with h
              injection h with h1 h2
              obtain ⟨ps, hps1, hpsre⟩ := parseStringRest_spec _ _ _ hps
              refine ⟨'"' :: (ps ++ ['"']), ?_, ⟨'"', ps ++ ['"'], rfl, by decide⟩,
                ⟨'"' :: ps, '"', by simp, by decide⟩, ?_⟩
              · rw [hps1, ← h2]
                simp
              · intro f' ext hf' hsafe
                obtain ⟨f'', rfl⟩ : ∃ f'', f' = f'' + 1 := ⟨f' - 1, by omega⟩
                have hass : ('"' :: (ps ++ ['"'])) ++ ext = '"' :: (ps ++ '"' :: ext) := by simp
                rw [hass, parseValue_succ, if_neg (show ¬('"' = '{') by decide),
                  if_neg (show ¬('"' = '[') by decide), if_pos rfl, hpsre]
                simp [← h1]
          · by_cases hc4 : c = 't'
            · subst hc4
              rw [if_neg hc1, if_neg hc2, if_neg hc3, if_pos rfl] at h
              cases hec : expectChars ['r', 'u', 'e'] rest0 with
              | none => rw [hec] at h; exact Option.noConfusion h
              | some rem =>
                rw [hec] at h
                simp only [Option.map_some'] at h
                injection h with h
                injection h with h1 h2
                have hsnd := expectChars_sound _ _ _ hec
                refine ⟨['t', 'r', 'u', 'e'], ?_, ⟨'t', ['r', 'u', 'e'], rfl, by decide⟩,
                  ⟨['t', 'r', 'u'], 'e', by simp, by decide⟩, ?_⟩
                · rw [hsnd, ← h2]
                  simp
                · intro f' ext hf' hsafe
                  obtain ⟨f'', rfl⟩ : ∃ f'', f' = f'' + 1 := ⟨f' - 1, by omega⟩
                  have hass : (['t', 'r', 'u', 'e'] : List Char) ++ ext
                      = 't' :: ('r' :: 'u' :: 'e' :: ext) := by simp
                  rw [hass, parseValue_succ, if_neg (show ¬('t' = '{') by decide),
                    if_neg (show ¬('t' = '[') by decide), if_neg (show ¬('t' = '"') by decide),
                    if_pos rfl]
                  have : ('r' :: 'u' :: 'e' :: ext) = ['r', 'u', 'e'] ++ ext := by simp
                  rw [this, expectChars_append]
                  simp [← h1]
            · by_cases hc5 : c = 'f'
              · subst hc5
                rw [if_neg hc1, if_neg hc2, if_neg hc3, if_neg hc4, if_pos rfl] at h
                cases hec : expectChars ['a', 'l', 's', 'e'] rest0 with
                | none => rw [hec] at h; exact Option.noConfusion h
                | some rem =>
                  rw [hec] at h
                  simp only [Option.map_some'] at h
                  injection h with h
                  injection h with h1 h2
                  have hsnd := expectChars_sound _ _ _ hec
                  refine ⟨['f', 'a', 'l', 's', 'e'], ?_,
                    ⟨'f', ['a', 'l', 's', 'e'], rfl, by decide⟩,
                    ⟨['f', 'a', 'l', 's'], 'e', by simp, by decide⟩, ?_⟩
                  · rw [hsnd, ← h2]
                    simp
                  · intro f' ext hf' hsafe
                    obtain ⟨f'', rfl⟩ : ∃ f'', f' = f'' + 1 := ⟨f' - 1, by omega⟩
                    have hass : (['f', 'a', 'l', 's', 'e'] : List Char) ++ ext
                        = 'f' :: ('a' :: 'l' :: 's' :: 'e' :: ext) := by simp
                    rw [hass, parseValue_succ, if_neg (show ¬('f' = '{') by decide),
                      if_neg (show ¬('f' = '[') by decide), if_neg (show ¬('f' = '"') by decide),
                      if_neg (show ¬('f' = 't') by decide), if_pos rfl]
                    have : ('a' :: 'l' :: 's' :: 'e' :: ext) = ['a', 'l', 's', 'e'] ++ ext := by
                      simp
                    rw [this, expectChars_append]
                    simp [← h1]
              · by_cases hc6 : c = 'n'
                · subst hc6
                  rw [if_neg hc1, if_neg hc2, if_neg hc3, if_neg hc4, if_neg hc5,
                    if_pos rfl] at h
                  cases hec : expectChars ['u', 'l', 'l'] rest0 with
                  | none => rw [hec] at h; exact Option.noConfusion h
                  | some rem =>
                    rw [hec] at h
                    simp only [Option.map_some'] at h
                    injection h with h
                    injection h with h1 h2
                    have hsnd := expectChars_sound _ _ _ hec
                    refine ⟨['n', 'u', 'l', 'l'], ?_, ⟨'n', ['u', 'l', 'l'], rfl, by decide⟩,
                      ⟨['n', 'u', 'l'], 'l', by simp, by decide⟩, ?_⟩
                    · rw [hsnd, ← h2]
                      simp
                    · intro f' ext hf' hsafe
                      obtain ⟨f'', rfl⟩ : ∃ f'', f' = f'' + 1 := ⟨f' - 1, by omega⟩
                      have hass : (['n', 'u', 'l', 'l'] : List Char) ++ ext
                          = 'n' :: ('u' :: 'l' :: 'l' :: ext) := by simp
                      rw [hass, parseValue_succ, if_neg (show ¬('n' = '{') by decide),
                        if_neg (show ¬('n' = '[') by decide),
                        if_neg (show ¬('n' = '"') by decide),
                        if_neg (show ¬('n' = 't') by decide),
                        if_neg (show ¬('n' = 'f') by decide), if_pos rfl]
                      have : ('u' :: 'l' :: 'l' :: ext) = ['u', 'l', 'l'] ++ ext := by simp
                      rw [this, expectChars_append]
                      simp [← h1]
                · by_cases hc7 : c = '-' ∨ c.isDigit
                  · rw [if_neg hc1, if_neg hc2, if_neg hc3, if_neg hc4, if_neg hc5,
                      if_neg hc6, if_pos hc7] at h
                    cases hn : parseNumber (c :: rest0) with
                    | none => rw [hn] at h; exact Option.noConfusion h
                    | some qn =>
                      obtain ⟨tok, r⟩ := qn
                      rw [hn] at h
                      simp only [Option.map_some'] at h
                      injection h with h
                      injection h with h1 h2
                      obtain ⟨hse, ⟨c0, t0, hdata, hc0⟩, ⟨tl, bl, hlastd, hbl⟩, hrep⟩ :=
                        parseNumber_spec _ _ _ hn
                      have hvs0 : valueStart c0 = true := by
                        rcases hc0 with hx | hx
                        · subst hx
                          decide
                        · exact digit_valueStart _ hx
                      refine ⟨tok.data, by rw [hse, h2], ⟨c0, t0, hdata, hvs0⟩,
                        ⟨tl, bl, hlastd, valueStart_endOk _ (digit_valueStart _ hbl)⟩, ?_⟩
                      intro f' ext hf' hsafe
                      obtain ⟨f'', rfl⟩ : ∃ f'', f' = f'' + 1 := ⟨f' - 1, by omega⟩
                      obtain ⟨hne1, hne2, hne3, hne4, hne5, hne6⟩ := numStart_ne c0 hc0
                      rw [hdata, List.cons_append, parseValue_succ, if_neg hne1, if_neg hne2,
                        if_neg hne3, if_neg hne4, if_neg hne5, if_neg hne6, if_pos hc0]
                      rw [← List.cons_append, ← hdata, hrep ext hsafe]
                      simp [← h1]
                  · rw [if_neg hc1, if_neg hc2, if_neg hc3, if_neg hc4, if_neg hc5,
                      if_neg hc6, if_neg hc7] at h
                    exact Option.noConfusion h

theorem endOk_not_ws (c : Char) (h : endOk c = true) : isWs c = false := by
  simp [endOk] at h
  tauto

theorem endOk_ne_backtick (c : Char) (h : endOk c = true) : ¬(c = '`') := by
  simp [endOk] at h
  tauto

theorem valueStart_ne_backtick (c : Char) (h : valueStart c = true) : ¬(c = '`') := by
  simp [valueStart] at h
  tauto

theorem skipWs_cons_ws (c : Char) (t : List Char) (h : isWs c = true) :
    skipWs (c :: t) = skipWs t := by
  simp [skipWs, h]

theorem dropTrailingWs_append_allWs (xs ys : List Char) (h : ys.all isWs = true) :
    dropTrailingWs (xs ++ ys) = dropTrailingWs xs := by
  unfold dropTrailingWs
  rw [List.reverse_append, skipWs_append_allWs]
  simpa using h

theorem dropTrailingWs_concat_not (xs : List Char) (c : Char) (h : isWs c = false) :
    dropTrailingWs (xs ++ [c]) = xs ++ [c] := by
  unfold dropTrailingWs
  rw [List.reverse_append]
  simp only [List.reverse_cons, List.reverse_nil, List.nil_append, List.singleton_append]
  rw [skipWs_cons_not _ _ h]
  simp

theorem fenceOpenTag_ne (c : Char) (t : List Char) (h : ¬(c = '`')) :
    fenceOpenTag (c :: t) = false := by
  rw [fenceOpenTag.eq_def]
  split
  · rename_i heq
    injection heq with h1 _
    exact absurd h1 h
  · rfl

theorem stripFenceOpen_ne (c : Char) (t : List Char) (h : ¬(c = '`')) :
    stripFenceOpen (c :: t) = c :: t := by
  unfold stripFenceOpen
  rw [fenceOpenTag_ne _ _ h]
  simp

theorem stripFenceOpen_fence (rest : List Char) :
    stripFenceOpen ('`' :: '`' :: '`' :: 'j' :: 's' :: 'o' :: 'n' :: rest)
      = skipWs rest := rfl

theorem stripFenceClose_concat (xs : List Char) :
    stripFenceClose (xs ++ ['`', '`', '`']) = xs := by
  have hrev : (xs ++ ['`', '`', '`']).reverse = '`' :: '`' :: '`' :: xs.reverse := by simp
  rw [stripFenceClose, hrev]
  exact List.reverse_reverse xs

theorem stripFenceClose_ne (xs : List Char) (c : Char) (h : ¬(c = '`')) :
    stripFenceClose (xs ++ [c]) = xs ++ [c] := by
  have hrev : (xs ++ [c]).reverse = c :: xs.reverse := by simp
  rw [stripFenceClose, hrev]
  split
  · rename_i heq
    injection heq with h1 _
    exact absurd h1 h
  · rfl

theorem jsonParseChars_inv (cs : List Char) (v : Json) (h : jsonParseChars cs = some v) :
    ∃ rest, parseValue (2 * cs.length + 1) (skipWs cs) = some (v, rest) ∧ skipWs rest = [] := by
  unfold jsonParseChars at h
  cases hpv : parseValue (2 * cs.length + 1) (skipWs cs) with
  | none => rw [hpv] at h; exact Option.noConfusion h
  | some q =>
    obtain ⟨v0, rest⟩ := q
    rw [hpv] at h
    dsimp only at h
    cases hr : skipWs rest with
    | nil =>
      rw [hr] at h
      injection h with h
      subst h
      exact ⟨rest, rfl, hr⟩
    | cons x xs =>
      rw [hr] at h
      exact Option.noConfusion h

theorem jsonParseChars_clean (cs : List Char) (v : Json) (h : jsonParseChars cs = some v) :
    jsonParseChars (cleanChars cs) = some v := by
  obtain ⟨rest, hpv, hrest⟩ := jsonParseChars_inv _ _ h
  obtain ⟨pre, hdecomp, ⟨c0, t0, hh0, hvs0⟩, ⟨tl, cl, hhl, hel⟩, hrep⟩ :=
    parseValue_spec _ _ _ _ hpv
  have hrestWs : rest.all isWs = true := skipWs_eq_nil_allWs _ hrest
  have hclean : cleanChars cs = pre := by
    unfold cleanChars trimChars
    rw [hdecomp, dropTrailingWs_append_allWs _ _ hrestWs, hhl,
      dropTrailingWs_concat_not _ _ (endOk_not_ws _ hel), ← hhl, hh0,
      stripFenceOpen_ne _ _ (valueStart_ne_backtick _ hvs0), ← hh0, hhl,
      stripFenceClose_ne _ _ (endOk_ne_backtick _ hel), ← hhl]
  rw [hclean]
  unfold jsonParseChars
  rw [hh0, skipWs_cons_not _ _ (valueStart_not_ws _ hvs0), ← hh0]
  have hval : parseValue (2 * pre.length + 1) (pre ++ []) = some (v, []) := by
    apply hrep
    · simp
    · rfl
  rw [List.append_nil] at hval
  rw [hval]
  rfl

theorem jsonParseChars_fenced (cs : List Char) (v : Json) (h : jsonParseChars cs = some v) :
    jsonParseChars (cleanChars
      (('`' :: '`' :: '`' :: 'j' :: 's' :: 'o' :: 'n' :: '\n' :: cs) ++ ['\n', '`', '`', '`']))
      = some v := by
  obtain ⟨rest, hpv, hrest⟩ := jsonParseChars_inv _ _ h
  obtain ⟨pre, hdecomp, ⟨c0, t0, hh0, hvs0⟩, _, hrep⟩ := parseValue_spec _ _ _ _ hpv
  have hrestWs : rest.all isWs = true := skipWs_eq_nil_allWs _ hrest
  obtain ⟨a, hae, haw⟩ := skipWs_decomp cs
  rw [hdecomp] at hae
  have hF : ('`' :: '`' :: '`' :: 'j' :: 's' :: 'o' :: 'n' :: '\n' :: cs) ++ ['\n', '`', '`', '`']
      = '`' :: '`' :: '`' :: 'j' :: 's' :: 'o' :: 'n'
        :: ('\n' :: (cs ++ ['\n', '`', '`', '`'])) := by simp
  rw [hF]
  have htrim : trimChars ('`' :: '`' :: '`' :: 'j' :: 's' :: 'o' :: 'n'
      :: ('\n' :: (cs ++ ['\n', '`', '`', '`'])))
      = '`' :: '`' :: '`' :: 'j' :: 's' :: 'o' :: 'n'
        :: ('\n' :: (cs ++ ['\n', '`', '`', '`'])) := by
    unfold trimChars
    rw [skipWs_cons_not _ _ (by decide)]
    have h2 : '`' :: '`' :: '`' :: 'j' :: 's' :: 'o' :: 'n'
        :: ('\n' :: (cs ++ ['\n', '`', '`', '`']))
        = ('`' :: '`' :: '`' :: 'j' :: 's' :: 'o' :: 'n'
          :: '\n' :: (cs ++ ['\n', '`', '`'])) ++ ['`'] := by simp
    rw [h2, dropTrailingWs_concat_not _ _ (by decide), ← h2]
  unfold cleanChars
  rw [htrim, stripFenceOpen_fence, skipWs_cons_ws _ _ (by decide)]
  have hcs : cs ++ ['\n', '`', '`', '`']
      = a ++ (pre ++ (rest ++ ['\n', '`', '`', '`'])) := by
    rw [hae]
    simp
  rw [hcs, skipWs_append_allWs _ _ haw, hh0, List.cons_append,
    skipWs_cons_not _ _ (valueStart_not_ws _ hvs0), ← List.cons_append, ← hh0]
  have h3 : pre ++ (rest ++ ['\n', '`', '`', '`'])
      = (pre ++ (rest ++ ['\n'])) ++ ['`', '`', '`'] := by simp
  rw [h3, stripFenceClose_concat]
  unfold jsonParseChars
  rw [hh0, List.cons_append, skipWs_cons_not _ _ (valueStart_not_ws _ hvs0),
    ← List.cons_append, ← hh0]
  have hval : parseValue (2 * (pre ++ (rest ++ ['\n'])).length + 1) (pre ++ (rest ++ ['\n']))
      = some (v, rest ++ ['\n']) := by
    apply hrep
    · simp only [List.length_append, List.length_cons, List.length_nil]
      omega
    · exact extSafe_allWs_append _ _ hrestWs (ws_extSafe _ _ (by decide))
  rw [hval]
  dsimp only
  rw [show skipWs (rest ++ ['\n']) = [] from by
    rw [skipWs_append_allWs _ _ hrestWs]
    rfl]

theorem c3_amended_fence_equivalence (k : Option String) (rawBody : String) (bodyJson : Json)
    (p : String) (u1 u2 : String → UpstreamResult) (s : String) (v : Json)
    (hk : apiKeyConfigured k = true)
    (hb : jsonParse rawBody = some bodyJson)
    (hp : promptOf bodyJson = some p)
    (hu1 : u1 (buildContent p) = UpstreamResult.ok (fenceWrap s))
    (hu2 : u2 (buildContent p) = UpstreamResult.ok s)
    (hs : jsonParse s = some v) :
    POST k rawBody u1 = POST k rawBody u2 ∧ POST k rawBody u1 = ⟨200, v⟩ := by
  have hclean2 : jsonParse (cleanModelText s) = some v := jsonParseChars_clean _ _ hs
  have hdata : (fenceWrap s).data
      = ('`' :: '`' :: '`' :: 'j' :: 's' :: 'o' :: 'n' :: '\n' :: s.data)
        ++ ['\n', '`', '`', '`'] := by
    rw [fenceWrap, String.data_append, String.data_append]
    rfl
  have hclean1 : jsonParse (cleanModelText (fenceWrap s)) = some v := by
    show jsonParseChars (cleanChars (fenceWrap s).data) = some v
    rw [hdata]
    exact jsonParseChars_fenced _ _ hs
  have h1 : POST k rawBody u1 = ⟨200, v⟩ := by
    unfold POST
    simp [hk, hb, hp, hu1, hclean1]
  have h2 : POST k rawBody u2 = ⟨200, v⟩ := by
    unfold POST
    simp [hk, hb, hp, hu2, hclean2]
  exact ⟨h1.trans h2.symm, h1⟩

theorem c3_amended_fence_equivalence_witness :
    POST (some "k") "\x7b\"prompt\":\"hi\"\x7d"
        (fun _ => UpstreamResult.ok (fenceWrap " \x7b\"a\": [1, true]\x7d "))
      = POST (some "k") "\x7b\"prompt\":\"hi\"\x7d"
        (fun _ => UpstreamResult.ok " \x7b\"a\": [1, true]\x7d ") ∧
    POST (some "k") "\x7b\"prompt\":\"hi\"\x7d"
        (fun _ => UpstreamResult.ok (fenceWrap " \x7b\"a\": [1, true]\x7d "))
      = ⟨200, Json.obj [("a", Json.arr [Json.num "1", Json.bool true])]⟩ :=
  c3_amended_fence_equivalence (some "k") _ (Json.obj [("prompt", Json.str "hi")]) "hi" _ _
    " \x7b\"a\": [1, true]\x7d " (Json.obj [("a", Json.arr [Json.num "1", Json.bool true])])
    rfl rfl rfl rfl rfl rfl
